import Mathlib

/-!
# Verification of the effect-idb core against its specification

Shallow embedding of the effect-idb library: the schema-migration engine
(`autoGenerateObjectStores`, `keyPathsMatch`, the ordered-migration loop of
`request.onupgradeneeded`), the open-resolution logic (`request.onsuccess`
and the upgrade-fiber await continuation), the per-scope transaction registry
(`addStore` / `setPermissions` / `makeTransaction` / `useObjectStore`) and the
object-store error taxonomy (`matchObjectStoreError`, `useRawStoreRequest`).

The native IndexedDB engine is the external collaborator; the parts of its
state the library manipulates (object stores, indexes, transactions) are
modelled as explicit data, with the documented defaults (index `unique` and
`multiEntry` default to `false` when the options are omitted).
-/

/-- A native key path: either a single field name or an ordered composite
(`string | string[]` in the source). -/
inductive KeyPath where
  | single (field : String)
  | composite (fields : List String)
deriving DecidableEq

/-- `keyPathsMatch` from `createUpgradeService`: array-vs-array compares length
and element-wise equality (`incoming.every((key, index) => key === existing[index])`,
the lookup beyond the bounds yielding no element), array-vs-string is always
`false`, string-vs-string compares by value. -/
def keyPathsMatch (incoming existing : KeyPath) : Bool :=
  match incoming, existing with
  | .composite a, .composite b =>
      a.length == b.length && a.enum.all fun p => b.get? p.1 == some p.2
  | .composite _, .single _ => false
  | .single _, .composite _ => false
  | .single a, .single b => a == b

theorem keyPathsMatch_composite_iff (a b : List String) :
    keyPathsMatch (.composite a) (.composite b) = true ↔
      a.length = b.length ∧ ∀ i h h', a.get ⟨i, h⟩ = b.get ⟨i, h'⟩ := by
  simp only [keyPathsMatch, Bool.and_eq_true, beq_iff_eq, List.all_eq_true]
  constructor
  · rintro ⟨hlen, hall⟩
    refine ⟨hlen, fun i h h' => ?_⟩
    have hmem : (i, a.get ⟨i, h⟩) ∈ a.enum := by
      rw [List.mk_mem_enum_iff_getElem?]
      simp [List.getElem?_eq_getElem h]
    have := hall _ hmem
    simp only [beq_iff_eq] at this
    have hb : b.get? i = some (b.get ⟨i, h'⟩) := by
      simp [List.get?_eq_getElem?, List.getElem?_eq_getElem h']
    rw [this] at hb
    exact Option.some_injective _ hb
  · rintro ⟨hlen, hall⟩
    refine ⟨hlen, fun p hp => ?_⟩
    obtain ⟨i, x⟩ := p
    rw [List.mk_mem_enum_iff_getElem?] at hp
    have hi : i < a.length := (List.getElem?_eq_some.mp hp).1
    have hx : a.get ⟨i, hi⟩ = x := by
      have := List.getElem?_eq_getElem hi
      rw [this] at hp
      exact Option.some_injective _ hp
    have hi' : i < b.length := hlen ▸ hi
    simp only [beq_iff_eq, List.get?_eq_getElem?, List.getElem?_eq_getElem hi']
    rw [← hx]
    exact congrArg some (hall i hi hi').symm

/-- Key-path equality used by auto-reconciliation coincides with structural
equality of the `KeyPath` values. -/
theorem keyPathsMatch_iff_eq (p q : KeyPath) : keyPathsMatch p q = true ↔ p = q := by
  cases p with
  | single a =>
    cases q with
    | single b => simp [keyPathsMatch]
    | composite b => simp [keyPathsMatch]
  | composite a =>
    cases q with
    | single b => simp [keyPathsMatch]
    | composite b =>
      rw [keyPathsMatch_composite_iff]
      constructor
      · rintro ⟨hlen, hall⟩
        have : a = b := List.ext_get hlen hall
        rw [this]
      · intro h
        obtain rfl : a = b := by injection h
        exact ⟨rfl, fun i h h' => rfl⟩

/-- C7: the key-path equality used by auto-reconciliation: string arrays match
iff they have equal length and pairwise-equal elements; an array key path and a
string key path never match (in either order), even with coinciding contents;
two strings match iff they are equal. -/
theorem keyPathsMatch_characterization :
    (∀ a b : List String,
        keyPathsMatch (.composite a) (.composite b) = true ↔
          a.length = b.length ∧ ∀ i h h', a.get ⟨i, h⟩ = b.get ⟨i, h'⟩) ∧
    (∀ (a : List String) (s : String),
        keyPathsMatch (.composite a) (.single s) = false ∧
        keyPathsMatch (.single s) (.composite a) = false) ∧
    (∀ s t : String, keyPathsMatch (.single s) (.single t) = true ↔ s = t) := by
  refine ⟨keyPathsMatch_composite_iff, fun a s => ⟨rfl, rfl⟩, fun s t => ?_⟩
  simp [keyPathsMatch]

/-- Options of a declared index (`IDBObjectStoreIndexParams.options`); each
field may be omitted (`undefined` in the source). -/
structure IndexOptions where
  unique : Option Bool
  multiEntry : Option Bool
deriving DecidableEq

/-- A declared index (`IDBObjectStoreIndexParams`): name, key path, and an
optional options object. -/
structure IDBObjectStoreIndexParams where
  name : String
  keyPath : KeyPath
  options : Option IndexOptions
deriving DecidableEq

/-- Native store-creation parameters (`IDBObjectStoreParameters`). -/
structure IDBObjectStoreParameters where
  keyPath : Option KeyPath := none
  autoIncrement : Option Bool := none
deriving DecidableEq

/-- A declared store (`IDBObjectStoreConfig`): name, creation parameters and
declared indexes. -/
structure IDBObjectStoreConfig where
  name : String
  params : IDBObjectStoreParameters
  indexes : List IDBObjectStoreIndexParams
deriving DecidableEq

/-- Native engine model: a live index of an object store. The native engine
stores concrete booleans for `unique` and `multiEntry` (both default to
`false` when the creation options omit them). -/
structure NativeIndex where
  name : String
  keyPath : KeyPath
  unique : Bool
  multiEntry : Bool
deriving DecidableEq

/-- Native engine model: a live object store with its indexes. -/
structure NativeStore where
  name : String
  params : IDBObjectStoreParameters
  indexes : List NativeIndex
deriving DecidableEq

/-- Native engine model: the database schema state visible during an upgrade
transaction. -/
structure NativeDB where
  stores : List NativeStore
deriving DecidableEq

/-- The index the native engine creates for `store.createIndex(name, keyPath,
options)`: omitted option fields default to `false`. -/
def mkNativeIndex (p : IDBObjectStoreIndexParams) : NativeIndex :=
  { name := p.name
    keyPath := p.keyPath
    unique := (p.options.bind IndexOptions.unique).getD false
    multiEntry := (p.options.bind IndexOptions.multiEntry).getD false }

def NativeStore.indexNamed (st : NativeStore) (n : String) : Option NativeIndex :=
  st.indexes.find? fun ix => ix.name == n

def NativeStore.hasIndex (st : NativeStore) (n : String) : Bool :=
  (st.indexNamed n).isSome

/-- Native engine model: `store.createIndex` throws `ConstraintError` when an
index of the same name exists, otherwise appends the new index. -/
def storeCreateIndex (st : NativeStore) (p : IDBObjectStoreIndexParams) :
    Except String NativeStore :=
  if st.hasIndex p.name then .error "ConstraintError"
  else .ok { st with indexes := st.indexes ++ [mkNativeIndex p] }

/-- Native engine model: `store.deleteIndex` throws `NotFoundError` when no
index of that name exists, otherwise removes it. -/
def storeDeleteIndex (st : NativeStore) (n : String) : Except String NativeStore :=
  if st.hasIndex n then .ok { st with indexes := st.indexes.filter fun ix => ix.name != n }
  else .error "NotFoundError"

def NativeDB.storeNamed (db : NativeDB) (n : String) : Option NativeStore :=
  db.stores.find? fun st => st.name == n

def NativeDB.updateStore (db : NativeDB) (st' : NativeStore) : NativeDB :=
  ⟨db.stores.map fun st => if st.name == st'.name then st' else st⟩

/-- Well-formedness the native engine maintains: index names within a store are
distinct. -/
def NativeStore.wf (st : NativeStore) : Prop :=
  (st.indexes.map NativeIndex.name).Nodup

instance (st : NativeStore) : Decidable st.wf := by
  unfold NativeStore.wf
  infer_instance

/-- Well-formedness the native engine maintains: store names are distinct and
every store is well-formed. -/
def NativeDB.wf (db : NativeDB) : Prop :=
  (db.stores.map NativeStore.name).Nodup ∧ ∀ st ∈ db.stores, st.wf

instance (db : NativeDB) : Decidable db.wf := by
  unfold NativeDB.wf
  infer_instance

/-- Structural schema changes performed against the native engine during an
upgrade, in execution order. -/
inductive SchemaOp where
  | createStore (storeName : String)
  | createIndex (storeName : String) (params : IDBObjectStoreIndexParams)
  | deleteIndex (storeName : String) (indexName : String)
deriving DecidableEq

/-- Errors of the upgrade unit: the library's tagged errors
(`IDBDatabaseObjectStoreCreationError`, `IDBDatabaseObjectStoreDeletionError`,
`IDBTransactionError`) plus escalation of unrecognized throws as defects. -/
inductive UpgradeError where
  | storeCreationError (storeName : String) (cause : String)
  | storeDeletionError (cause : String)
  | transactionError (storeName : String) (cause : String)
  | engineDefect (cause : String)
deriving DecidableEq

/-- `CreateObjectStoreIndexExceptionType`: exception names `addStoreIndex`
recognizes for `createIndex`. -/
def CreateObjectStoreIndexExceptionTypes : List String :=
  ["ConstraintError", "InvalidAccessError", "InvalidStateError", "SyntaxError",
   "TransactionInactiveError"]

/-- `CreateObjectStoreExceptionType`: exception names `createObjectStore`
recognizes for `db.createObjectStore`. -/
def CreateObjectStoreExceptionTypes : List String :=
  ["InvalidStateError", "ConstraintError", "InvalidAccessError", "SyntaxError",
   "TransactionInactiveError"]

/-- `addStoreIndex` from `createUpgradeService`: issue the native `createIndex`;
a recognized exception becomes a typed `IDBDatabaseObjectStoreCreationError`
naming the store, an unrecognized one escalates as a defect. Emits the
performed schema operation. -/
def addStoreIndex (st : NativeStore) (p : IDBObjectStoreIndexParams) :
    Except UpgradeError (NativeStore × List SchemaOp) :=
  match storeCreateIndex st p with
  | .ok st' => .ok (st', [.createIndex st.name p])
  | .error cause =>
      if CreateObjectStoreIndexExceptionTypes.contains cause then
        .error (.storeCreationError st.name cause)
      else .error (.engineDefect cause)

/-- Sequential index creation used by `createObjectStore`
(`Effect.forEach(indexes, (index) => addStoreIndex(store, index))`). -/
def addStoreIndexes (st : NativeStore) :
    List IDBObjectStoreIndexParams → Except UpgradeError (NativeStore × List SchemaOp)
  | [] => .ok (st, [])
  | p :: rest =>
    match addStoreIndex st p with
    | .error e => .error e
    | .ok (st', ops) =>
      match addStoreIndexes st' rest with
      | .error e => .error e
      | .ok (st'', ops') => .ok (st'', ops ++ ops')

/-- `createObjectStore` from `createUpgradeService`: call the native
`db.createObjectStore` (recognized exceptions become typed creation errors),
then sequentially create the given indexes. -/
def createObjectStore (db : NativeDB) (name : String)
    (options : IDBObjectStoreParameters) (indexes : List IDBObjectStoreIndexParams) :
    Except UpgradeError (NativeDB × List SchemaOp) :=
  match db.storeNamed name with
  | some _ => .error (.storeCreationError name "ConstraintError")
  | none =>
    let st0 : NativeStore := ⟨name, options, []⟩
    match addStoreIndexes st0 indexes with
    | .error e => .error e
    | .ok (st', ops) => .ok (⟨db.stores ++ [st']⟩, .createStore name :: ops)

/-- The `unique` comparison of `autoGenerateObjectStores`:
`incoming.options && existing.unique !== incoming.options.unique`. When the
options object is present but its `unique` field is omitted, the strict
JavaScript comparison of a boolean against `undefined` is `true`. -/
def optionsUniqueMismatch (incoming : IDBObjectStoreIndexParams)
    (existing : NativeIndex) : Bool :=
  match incoming.options with
  | none => false
  | some opts =>
    match opts.unique with
    | none => true
    | some u => existing.unique != u

/-- The `multiEntry` comparison of `autoGenerateObjectStores`:
`incoming.options && existing.multiEntry !== incoming.options.multiEntry`. -/
def optionsMultiEntryMismatch (incoming : IDBObjectStoreIndexParams)
    (existing : NativeIndex) : Bool :=
  match incoming.options with
  | none => false
  | some opts =>
    match opts.multiEntry with
    | none => true
    | some m => existing.multiEntry != m

/-- The recreate condition of `autoGenerateObjectStores` for a declared index
that already exists under the same name. -/
def indexNeedsRecreate (incoming : IDBObjectStoreIndexParams)
    (existing : NativeIndex) : Bool :=
  !keyPathsMatch incoming.keyPath existing.keyPath
    || optionsUniqueMismatch incoming existing
    || optionsMultiEntryMismatch incoming existing

/-- One iteration of the declared-index loop of `autoGenerateObjectStores`:
if the name is in the snapshot of pre-existing index names, look the index up
(a raw `store.index` call whose throw would escalate as a defect), delete and
recreate it on mismatch; otherwise create it. -/
def reconcileIndex (snapshot : List String) (st : NativeStore)
    (incoming : IDBObjectStoreIndexParams) :
    Except UpgradeError (NativeStore × List SchemaOp) :=
  if snapshot.contains incoming.name then
    match st.indexNamed incoming.name with
    | none => .error (.engineDefect "NotFoundError")
    | some existing =>
      if indexNeedsRecreate incoming existing then
        match storeDeleteIndex st incoming.name with
        | .error cause => .error (.engineDefect cause)
        | .ok st' =>
          match addStoreIndex st' incoming with
          | .error e => .error e
          | .ok (st'', ops) => .ok (st'', .deleteIndex st.name incoming.name :: ops)
      else .ok (st, [])
  else addStoreIndex st incoming

/-- The declared-index loop of `autoGenerateObjectStores`
(`Effect.forEach(storeConfig.indexes, ...)`), sequential. -/
def reconcileIndexes (snapshot : List String) (st : NativeStore) :
    List IDBObjectStoreIndexParams → Except UpgradeError (NativeStore × List SchemaOp)
  | [] => .ok (st, [])
  | inc :: rest =>
    match reconcileIndex snapshot st inc with
    | .error e => .error e
    | .ok (st', ops) =>
      match reconcileIndexes snapshot st' rest with
      | .error e => .error e
      | .ok (st'', ops') => .ok (st'', ops ++ ops')

/-- The trailing loop of `autoGenerateObjectStores`: every index name of the
snapshot that is not in the declared list is deleted (a raw `store.deleteIndex`
whose throw would escalate as a defect). -/
def deleteDeprecatedIndexes (declared : List IDBObjectStoreIndexParams)
    (st : NativeStore) : List String → Except UpgradeError (NativeStore × List SchemaOp)
  | [] => .ok (st, [])
  | n :: rest =>
    if declared.any (fun ix => ix.name == n) then
      deleteDeprecatedIndexes declared st rest
    else
      match storeDeleteIndex st n with
      | .error cause => .error (.engineDefect cause)
      | .ok st' =>
        match deleteDeprecatedIndexes declared st' rest with
        | .error e => .error e
        | .ok (st'', ops) => .ok (st'', .deleteIndex st.name n :: ops)

/-- The per-declared-store body of `autoGenerateObjectStores`: when the store
already exists, snapshot its index names (`Array.from(store.indexNames)`),
reconcile the declared indexes, then delete deprecated indexes; when absent,
create the store with its declared indexes. -/
def processStoreConfig (db : NativeDB) (sc : IDBObjectStoreConfig) :
    Except UpgradeError (NativeDB × List SchemaOp) :=
  match db.storeNamed sc.name with
  | some st =>
    let snapshot := st.indexes.map NativeIndex.name
    match reconcileIndexes snapshot st sc.indexes with
    | .error e => .error e
    | .ok (st', ops1) =>
      match deleteDeprecatedIndexes sc.indexes st' snapshot with
      | .error e => .error e
      | .ok (st'', ops2) => .ok (db.updateStore st'', ops1 ++ ops2)
  | none => createObjectStore db sc.name sc.params sc.indexes

/-- `autoGenerateObjectStores`: the sequential `Effect.forEach` over
`config.autoObjectStores ?? []`. -/
def autoGenerateObjectStores (configs : List IDBObjectStoreConfig) (db : NativeDB) :
    Except UpgradeError (NativeDB × List SchemaOp) :=
  match configs with
  | [] => .ok (db, [])
  | sc :: rest =>
    match processStoreConfig db sc with
    | .error e => .error e
    | .ok (db', ops) =>
      match autoGenerateObjectStores rest db' with
      | .error e => .error e
      | .ok (db'', ops') => .ok (db'', ops ++ ops')

/-- `IDBDatabaseConfig`: database name, optional target version, optional
auto-reconciliation schema, and the optional migration plan. The plan's
per-version effects are opaque; the model keeps the set of version keys of the
record returned by `onUpgradeNeeded`. -/
structure IDBDatabaseConfig where
  name : String
  version : Option Nat := none
  autoObjectStores : Option (List IDBObjectStoreConfig) := none
  onUpgradeNeeded : Option (List Nat) := none
deriving DecidableEq

/-- One entry of the `orderedMigrations` array built in `request.onupgradeneeded`:
either the explicit migration effect declared for a version, or the
`autoGenerateObjectStores` fallback effect. -/
inductive MigrationStep where
  | explicitStep (version : Nat)
  | autoReconcile
deriving DecidableEq

/-- `migrationEffects[version]` is present: the plan record (built only when
`config.onUpgradeNeeded` is defined, `{}` otherwise) has a key for `version`. -/
def planHasVersion (cfg : IDBDatabaseConfig) (v : Nat) : Bool :=
  match cfg.onUpgradeNeeded with
  | some versions => versions.contains v
  | none => false

/-- The truthiness of `config.autoObjectStores?.length`: defined and nonzero. -/
def autoStoresNonempty (cfg : IDBDatabaseConfig) : Bool :=
  !(cfg.autoObjectStores.getD []).isEmpty

/-- The `for (let version = startVersion; version <= endVersion; version++)`
loop of `request.onupgradeneeded`, with the iteration count made explicit:
push the explicit step when declared, else push `autoGenerateObjectStores`
when `config.autoObjectStores?.length` is truthy, else push nothing. -/
def migrationLoop (cfg : IDBDatabaseConfig) (version : Nat) :
    Nat → List MigrationStep
  | 0 => []
  | n + 1 =>
    (if planHasVersion cfg version then [.explicitStep version]
     else if autoStoresNonempty cfg then [.autoReconcile]
     else []) ++ migrationLoop cfg (version + 1) n

/-- The `orderedMigrations` array for an open that upgrades from `oldVersion`
to `newVersion`: the loop runs from `startVersion = oldVersion + 1` through
`endVersion = newVersion`. `Effect.all` then executes the entries
sequentially in list order. -/
def orderedMigrations (cfg : IDBDatabaseConfig) (oldVersion newVersion : Nat) :
    List MigrationStep :=
  migrationLoop cfg (oldVersion + 1) (newVersion + 1 - (oldVersion + 1))

/-- The ascending version range `oldVersion + 1 .. newVersion`. -/
def versionRange (oldVersion newVersion : Nat) : List Nat :=
  (List.range (newVersion - oldVersion)).map fun i => oldVersion + 1 + i

/-- Modelled from the claim's words: per-version step selection where the
auto-reconciliation fallback applies whenever a schema declaration
(`autoObjectStores`) exists, empty or not. Compared against the source's
selection to settle the claim. -/
def claimedStepForVersion (cfg : IDBDatabaseConfig) (v : Nat) : Option MigrationStep :=
  if planHasVersion cfg v then some (.explicitStep v)
  else if cfg.autoObjectStores.isSome then some .autoReconcile
  else none

/-- Per-version step selection as the source implements it: the
auto-reconciliation fallback applies only when `autoObjectStores` is declared
and nonempty. -/
def amendedStepForVersion (cfg : IDBDatabaseConfig) (v : Nat) : Option MigrationStep :=
  if planHasVersion cfg v then some (.explicitStep v)
  else if autoStoresNonempty cfg then some .autoReconcile
  else none

/-- Sequential execution of the migration unit (`Effect.all` without
concurrency): run each step in list order, stopping at the first failure. -/
def runMigrationUnit {ε : Type} (exec : MigrationStep → Except ε Unit) :
    List MigrationStep → Except ε Unit
  | [] => .ok ()
  | s :: rest =>
    match exec s with
    | .error e => .error e
    | .ok _ => runMigrationUnit exec rest

/-- `IDBDatabaseOpenError`: message plus the wrapped originating cause. -/
structure IDBDatabaseOpenError where
  message : String
  cause : Option String := none
deriving DecidableEq

/-- How one handler resolves the suspended open operation: succeed with the
native handle, fail with a typed open error, die with a defect, or leave the
operation pending for another handler. -/
inductive OpenResolution where
  | resolved (handle : Nat)
  | failedOpen (err : IDBDatabaseOpenError)
  | defect (message : String)
  | pending
deriving DecidableEq

/-- The continuation attached to `Fiber.await(upgradeFiber)` inside
`request.onupgradeneeded`: on a failed upgrade exit it resumes the open with
an `IDBDatabaseOpenError` wrapping the cause; on success it resumes nothing
(the `onsuccess` handler resolves the open); an abnormal await is a defect. -/
def upgradeAwaitResume (awaitExit : Except String (Except String Unit)) :
    OpenResolution :=
  match awaitExit with
  | .ok (.ok _) => .pending
  | .ok (.error cause) =>
      .failedOpen
        { message := "Error occurred during database upgrade process.\n" ++ cause
          cause := some cause }
  | .error cause => .defect ("Unexpected error during upgrade process. " ++ cause)

/-- `request.onsuccess`: when an upgrade fiber was forked, await its exit —
failure resumes the open with an `IDBDatabaseOpenError` wrapping the cause,
success resumes with `request.result`; with no upgrade fiber, resume with
`request.result` directly. -/
def onSuccessResume (upgradeFiberExit : Option (Except String Unit))
    (result : Nat) : OpenResolution :=
  match upgradeFiberExit with
  | none => .resolved result
  | some (.ok _) => .resolved result
  | some (.error cause) =>
      .failedOpen
        { message := "Error occurred during database upgrade process.\n" ++ cause
          cause := some cause }

/-- `request.onupgradeneeded`: return without forking anything when the
configuration declares neither a migration plan nor a schema, or when
`event.newVersion` is `null` (deletion); otherwise fork the ordered migration
unit for `oldVersion + 1 .. newVersion`. `none` means no upgrade fiber exists
and no upgrade service was constructed. -/
def runUpgradeHandler (cfg : IDBDatabaseConfig) (oldVersion : Nat)
    (newVersion : Option Nat) : Option (List MigrationStep) :=
  if cfg.onUpgradeNeeded = none ∧ cfg.autoObjectStores = none then none
  else
    match newVersion with
    | none => none
    | some nv => some (orderedMigrations cfg oldVersion nv)

/-- The open's resolution through the success event, given an executor for the
forked migration unit. -/
def openSuccessOutcome (cfg : IDBDatabaseConfig) (oldVersion : Nat)
    (newVersion : Option Nat) (exec : List MigrationStep → Except String Unit)
    (result : Nat) : OpenResolution :=
  onSuccessResume ((runUpgradeHandler cfg oldVersion newVersion).map exec) result

/-- Transaction permission mode. -/
inductive TxnMode where
  | readonly
  | readwrite
deriving DecidableEq

/-- `IDBTransactionParams` as recorded in the database service's
`__transactionHistoryRef` on every native transaction creation. -/
structure IDBTransactionParams where
  storeNames : List String
  mode : TxnMode
deriving DecidableEq

/-- Native engine model: a live transaction handle; `id` distinguishes
physically distinct native transactions. -/
structure NativeTxn where
  id : Nat
  storeNames : List String
  mode : TxnMode
deriving DecidableEq

/-- The database service's mutable state relevant to transactions: the
transaction history and a counter allocating distinct native handles. -/
structure DBServiceState where
  transactionHistory : List IDBTransactionParams
  nextTxnId : Nat
deriving DecidableEq

/-- The scope-local state of `registryServiceEffect`: the accumulating store
name set (`storeNamesRef`, a JS `Set`, insertion-ordered), the bound permission
(`permissionRef`, initially `"readonly"`), and the memoized live transaction
(`liveTransaction`, initially `null`). -/
structure RegistryState where
  storeNames : List String
  permission : TxnMode
  liveTransaction : Option NativeTxn
deriving DecidableEq

/-- The registry state of a freshly entered scope. -/
def freshRegistry : RegistryState := ⟨[], .readonly, none⟩

/-- JS `Set.add`: idempotent insertion preserving insertion order. -/
def setAdd (l : List String) (x : String) : List String :=
  if l.contains x then l else l ++ [x]

/-- `addStore` of the registry: idempotently add the name to the accumulating
set. It never consults or touches the live transaction. -/
def RegistryState.addStore (r : RegistryState) (name : String) : RegistryState :=
  { r with storeNames := setAdd r.storeNames name }

/-- `setPermissions` of the registry. -/
def RegistryState.setPermissions (r : RegistryState) (p : TxnMode) : RegistryState :=
  { r with permission := p }

/-- Failures of the transaction layer (`IDBTransactionError`): opening the
native transaction fails, or a requested store is not in the transaction's
scope. -/
inductive TransactionFailure where
  | openError (storeNames : List String) (mode : TxnMode) (cause : String)
  | storeNotFound (storeName : String) (cause : String)
deriving DecidableEq

/-- `makeTransaction` of the registry: open a native transaction covering the
current accumulated store set under the current permission (the native
`db.transaction` throws `InvalidAccessError` on an empty store list), push the
parameters onto the transaction history, and memoize the handle. -/
def makeTransaction (r : RegistryState) (dbs : DBServiceState) :
    Except TransactionFailure (NativeTxn × RegistryState × DBServiceState) :=
  if r.storeNames.isEmpty then
    .error (.openError r.storeNames r.permission "InvalidAccessError")
  else
    .ok (⟨dbs.nextTxnId, r.storeNames, r.permission⟩,
      { r with liveTransaction := some ⟨dbs.nextTxnId, r.storeNames, r.permission⟩ },
      { transactionHistory := dbs.transactionHistory ++ [⟨r.storeNames, r.permission⟩]
        nextTxnId := dbs.nextTxnId + 1 })

/-- A resolved native object-store reference, identified by the owning
transaction and the store name. -/
structure StoreRef where
  txnId : Nat
  storeName : String
deriving DecidableEq

/-- `getRawObjectStoreFromRawTransactionEffect`: the native
`transaction.objectStore` throws `NotFoundError` when the store is not in the
transaction's scope; that is classified as a typed `IDBTransactionError`. -/
def txnObjectStore (t : NativeTxn) (name : String) : Except TransactionFailure StoreRef :=
  if t.storeNames.contains name then .ok ⟨t.id, name⟩
  else .error (.storeNotFound name "NotFoundError")

/-- `useObjectStore` of the registry: start the transaction lazily if none is
live yet, then resolve the store name against the (now memoized) native
transaction. -/
def useObjectStore (r : RegistryState) (dbs : DBServiceState) (name : String) :
    Except TransactionFailure (StoreRef × RegistryState × DBServiceState) :=
  match r.liveTransaction with
  | some t =>
    match txnObjectStore t name with
    | .error e => .error e
    | .ok ref => .ok (ref, r, dbs)
  | none =>
    match makeTransaction r dbs with
    | .error e => .error e
    | .ok (t, r', dbs') =>
      match txnObjectStore t name with
      | .error e => .error e
      | .ok ref => .ok (ref, r', dbs')

/-- The operations a scope can issue against its registry. -/
inductive RegistryOp where
  | addStore (name : String)
  | setPermissions (mode : TxnMode)
  | useObjectStore (name : String)
deriving DecidableEq

/-- Sequential execution of a scope's registry operations, collecting the
store references resolved by the accesses. -/
def runRegistryOps (r : RegistryState) (dbs : DBServiceState) :
    List RegistryOp → Except TransactionFailure (RegistryState × DBServiceState × List StoreRef)
  | [] => .ok (r, dbs, [])
  | op :: rest =>
    match op with
    | .addStore n => runRegistryOps (r.addStore n) dbs rest
    | .setPermissions p => runRegistryOps (r.setPermissions p) dbs rest
    | .useObjectStore n =>
      match useObjectStore r dbs n with
      | .error e => .error e
      | .ok (ref, r', dbs') =>
        match runRegistryOps r' dbs' rest with
        | .error e => .error e
        | .ok (r'', dbs'', refs) => .ok (r'', dbs'', ref :: refs)

/-- Registration of a list of store names (repeated `addStore`). -/
def registerStores (r : RegistryState) : List String → RegistryState
  | [] => r
  | n :: rest => registerStores (r.addStore n) rest

/-- The object-store service operations of the proxy. -/
inductive ServiceOperation where
  | add
  | put
  | get
  | getAll
  | delete
  | clear
deriving DecidableEq

def serviceOperationName : ServiceOperation → String
  | .add => "add"
  | .put => "put"
  | .get => "get"
  | .getAll => "getAll"
  | .delete => "delete"
  | .clear => "clear"

/-- A JavaScript failure value as the taxonomy distinguishes them: a
`DOMException` with its name, a `TypeError`, or any other thrown value. -/
inductive JSError where
  | domException (name : String) (message : String)
  | typeError (message : String)
  | otherError (name : String) (message : String)
deriving DecidableEq

def jsErrorMessage : JSError → String
  | .domException _ m => m
  | .typeError m => m
  | .otherError _ m => m

/-- The JavaScript `name` of the failure (`"TypeError"` for a `TypeError`). -/
def jsErrorName : JSError → String
  | .domException n _ => n
  | .typeError _ => "TypeError"
  | .otherError n _ => n

/-- `isKnownDOMException`: the failure is a `DOMException` whose name is in
the given known-name list. -/
def isKnownDOMException (e : JSError) (knownNames : List String) : Bool :=
  match e with
  | .domException n _ => knownNames.contains n
  | _ => false

/-- `ObjectStoreAddExceptionType`. -/
def ObjectStoreAddExceptionTypes : List String :=
  ["ReadOnlyError", "TransactionInactiveError", "DataError", "InvalidStateError",
   "DataCloneError", "ConstraintError"]

/-- `ObjectStoreClearExceptionType`. -/
def ObjectStoreClearExceptionTypes : List String :=
  ["InvalidStateError", "ReadOnlyError", "TransactionInactiveError"]

/-- `ObjectStorePutSyncExceptionType`. -/
def ObjectStorePutSyncExceptionTypes : List String :=
  ["ReadOnlyError", "TransactionInactiveError", "DataError", "InvalidStateError",
   "DataCloneError"]

/-- `ObjectStorePutAsyncExceptionType`. -/
def ObjectStorePutAsyncExceptionTypes : List String :=
  ["ConstraintError", "QuotaExceededError", "AbortError", "UnknownError"]

/-- `ObjectStorePutExceptionType` (sync set followed by async set). -/
def ObjectStorePutExceptionTypes : List String :=
  ObjectStorePutSyncExceptionTypes ++ ObjectStorePutAsyncExceptionTypes

/-- `ObjectStoreGetExceptionType`. -/
def ObjectStoreGetExceptionTypes : List String :=
  ["TransactionInactiveError", "DataError", "InvalidStateError"]

/-- `ObjectStoreGetAllExceptionType`. -/
def ObjectStoreGetAllExceptionTypes : List String :=
  ["TransactionInactiveError", "DataError", "InvalidStateError"]

/-- `ObjectStoreDeleteExceptionType`. -/
def ObjectStoreDeleteExceptionTypes : List String :=
  ["TransactionInactiveError", "ReadOnlyError", "InvalidStateError", "DataError"]

/-- The known exception-name set `matchObjectStoreError` consults for each
operation. -/
def operationExceptionSet : ServiceOperation → List String
  | .add => ObjectStoreAddExceptionTypes
  | .clear => ObjectStoreClearExceptionTypes
  | .put => ObjectStorePutExceptionTypes
  | .get => ObjectStoreGetExceptionTypes
  | .getAll => ObjectStoreGetAllExceptionTypes
  | .delete => ObjectStoreDeleteExceptionTypes

/-- `IDBObjectStoreOperationError`: the typed, recoverable error value
carrying the failed operation, a message, and the original cause. -/
structure IDBObjectStoreOperationError where
  operation : ServiceOperation
  message : String
  cause : JSError
deriving DecidableEq

/-- `matchObjectStoreError`: match the failure against the operation's known
exception set and build the typed error, with the `getAll` special case also
recognizing a `TypeError` (invalid count argument); return `none` when
unrecognized. -/
def matchObjectStoreError (error : JSError) (operation : ServiceOperation)
    (isAsync : Bool) : Option IDBObjectStoreOperationError :=
  let syncText := if isAsync then "Async" else "Sync"
  match operation with
  | .add =>
    if isKnownDOMException error ObjectStoreAddExceptionTypes then
      some ⟨operation, syncText ++ " error adding value to object store: " ++
        jsErrorMessage error, error⟩
    else none
  | .clear =>
    if isKnownDOMException error ObjectStoreClearExceptionTypes then
      some ⟨operation, syncText ++ " error clearing object store: " ++
        jsErrorMessage error, error⟩
    else none
  | .put =>
    if isKnownDOMException error ObjectStorePutExceptionTypes then
      some ⟨operation, syncText ++ " error putting value in object store: " ++
        jsErrorMessage error, error⟩
    else none
  | .get =>
    if isKnownDOMException error ObjectStoreGetExceptionTypes then
      some ⟨operation, syncText ++ " error getting value from object store: " ++
        jsErrorMessage error, error⟩
    else none
  | .getAll =>
    if isKnownDOMException error ObjectStoreGetAllExceptionTypes then
      some ⟨operation, syncText ++ " error getting all values from object store: " ++
        jsErrorMessage error, error⟩
    else
      match error with
      | .typeError m =>
        some ⟨operation, syncText ++ " error getting all values from object store: " ++
          m, error⟩
      | _ => none
  | .delete =>
    if isKnownDOMException error ObjectStoreDeleteExceptionTypes then
      some ⟨operation, syncText ++ " error deleting value from object store: " ++
        jsErrorMessage error, error⟩
    else none

/-- The outcome of one object-store request as observed by the caller. -/
inductive RequestOutcome where
  | typedError (err : IDBObjectStoreOperationError)
  | defect (cause : JSError)
deriving DecidableEq

/-- The synchronous-throw branch of `useRawStoreRequest` (`Effect.try` catch):
a matched failure becomes the typed error on the failure channel, an unmatched
one is rethrown as a defect carrying the original cause. -/
def classifySyncThrow (operation : ServiceOperation) (error : JSError) :
    RequestOutcome :=
  match matchObjectStoreError error operation false with
  | some err => .typedError err
  | none => .defect error

/-- The `request.onerror` branch of `useRawStoreRequest`: a matched failure is
resumed as the typed error (with an async prefix on the message), an unmatched
one is resumed as a defect. -/
def classifyAsyncFailure (operation : ServiceOperation) (error : JSError) :
    RequestOutcome :=
  match matchObjectStoreError error operation true with
  | some err =>
    .typedError
      { err with
        message := "Async error in IDBRequest for operation \"" ++
          serviceOperationName operation ++ "\": " ++ err.message }
  | none => .defect error

/-- The failure is recognized in the sense of `matchObjectStoreError`: its
`DOMException` name is in the operation's known set, or it is the `getAll`
`TypeError` special case. -/
def recognizedFailure (operation : ServiceOperation) (error : JSError) : Bool :=
  isKnownDOMException error (operationExceptionSet operation) ||
    (operation == .getAll &&
      match error with
      | .typeError _ => true
      | _ => false)

theorem matchObjectStoreError_none_iff (error : JSError)
    (operation : ServiceOperation) (isAsync : Bool) :
    matchObjectStoreError error operation isAsync = none ↔
      recognizedFailure operation error = false := by
  cases operation <;> cases error <;>
    simp only [matchObjectStoreError, recognizedFailure, operationExceptionSet,
      isKnownDOMException, Bool.or_eq_false_iff, Bool.and_eq_false_iff, beq_iff_eq] <;>
    split <;> simp_all

theorem matchObjectStoreError_some (error : JSError) (operation : ServiceOperation)
    (isAsync : Bool) (err : IDBObjectStoreOperationError)
    (h : matchObjectStoreError error operation isAsync = some err) :
    err.operation = operation ∧ err.cause = error := by
  cases operation <;> cases error <;>
    simp only [matchObjectStoreError] at h <;>
    (repeat' split at h) <;>
    first
      | (injection h with h2
         rw [← h2]
         exact ⟨rfl, rfl⟩)
      | simp at h

/-- C5 amended: a failure signal, synchronous or asynchronous, becomes a typed
`IDBObjectStoreOperationError` carrying the operation and the original cause
exactly when it is a `DOMException` whose name is in the operation's known
exception set, or (the `getAll` exception to the claim) a `TypeError` on
`getAll`; every other failure escalates as a defect carrying the original
cause. -/
theorem objectStore_failure_classification :
    ∀ (operation : ServiceOperation) (error : JSError),
      (recognizedFailure operation error = true →
        (∃ err, classifySyncThrow operation error = .typedError err ∧
          err.operation = operation ∧ err.cause = error) ∧
        (∃ err, classifyAsyncFailure operation error = .typedError err ∧
          err.operation = operation ∧ err.cause = error)) ∧
      (recognizedFailure operation error = false →
        classifySyncThrow operation error = .defect error ∧
        classifyAsyncFailure operation error = .defect error) := by
  intro operation error
  constructor
  · intro hrec
    constructor
    · rcases hm : matchObjectStoreError error operation false with _ | err
      · rw [matchObjectStoreError_none_iff] at hm
        rw [hrec] at hm
        exact absurd hm (by simp)
      · obtain ⟨h1, h2⟩ := matchObjectStoreError_some error operation false err hm
        exact ⟨err, by simp [classifySyncThrow, hm], h1, h2⟩
    · rcases hm : matchObjectStoreError error operation true with _ | err
      · rw [matchObjectStoreError_none_iff] at hm
        rw [hrec] at hm
        exact absurd hm (by simp)
      · obtain ⟨h1, h2⟩ := matchObjectStoreError_some error operation true err hm
        refine ⟨{ err with message := "Async error in IDBRequest for operation \"" ++
          serviceOperationName operation ++ "\": " ++ err.message }, ?_, h1, h2⟩
        simp [classifyAsyncFailure, hm]
  · intro hrec
    have hs : matchObjectStoreError error operation false = none :=
      (matchObjectStoreError_none_iff error operation false).mpr hrec
    have ha : matchObjectStoreError error operation true = none :=
      (matchObjectStoreError_none_iff error operation true).mpr hrec
    exact ⟨by simp [classifySyncThrow, hs], by simp [classifyAsyncFailure, ha]⟩

/-- C5 witness: a `ConstraintError` on `add` is in the known set and yields
the typed error; an unrecognized `DOMException` on `get` escalates as a
defect. -/
theorem objectStore_failure_classification_witness :
    (∃ err, classifySyncThrow .add (.domException "ConstraintError" "dup") = .typedError err ∧
      err.operation = .add ∧ err.cause = .domException "ConstraintError" "dup") ∧
    classifySyncThrow .get (.domException "SecurityError" "denied") =
      .defect (.domException "SecurityError" "denied") :=
  ⟨((objectStore_failure_classification .add (.domException "ConstraintError" "dup")).1
      (by decide)).1,
    ((objectStore_failure_classification .get (.domException "SecurityError" "denied")).2
      (by decide)).1⟩

/-- C5 counterexample: on `getAll`, a `TypeError` — whose exception name
`"TypeError"` is not in the operation's known exception set — is returned as a
typed `IDBObjectStoreOperationError`, not escalated as a defect as the claim
requires. -/
theorem getAll_typeError_refutes_claim :
    (operationExceptionSet .getAll).contains
        (jsErrorName (.typeError "count out of range")) = false ∧
    classifySyncThrow .getAll (.typeError "count out of range") =
      .typedError ⟨.getAll, "Sync error getting all values from object store: count out of range",
        .typeError "count out of range"⟩ ∧
    ∀ c, classifySyncThrow .getAll (.typeError "count out of range") ≠ .defect c := by
  refine ⟨by decide, rfl, fun c h => ?_⟩
  simp [classifySyncThrow, matchObjectStoreError, isKnownDOMException] at h

/-- C2: when the upgrade/migration unit fails with any cause, both resume
paths of the open operation — the continuation awaiting the upgrade fiber and
the `onsuccess` handler — fail the entire open with an `IDBDatabaseOpenError`
wrapping the original cause, and neither exposes an opened handle. -/
theorem upgrade_failure_fails_open :
    ∀ (cause : String) (result : Nat),
      (∃ err, upgradeAwaitResume (.ok (.error cause)) = .failedOpen err ∧
        err.cause = some cause) ∧
      (∃ err, onSuccessResume (some (.error cause)) result = .failedOpen err ∧
        err.cause = some cause) ∧
      (∀ h, upgradeAwaitResume (.ok (.error cause)) ≠ .resolved h) ∧
      (∀ h, onSuccessResume (some (.error cause)) result ≠ .resolved h) := by
  intro cause result
  refine ⟨⟨_, rfl, rfl⟩, ⟨_, rfl, rfl⟩, fun h hc => ?_, fun h hc => ?_⟩
  · simp [upgradeAwaitResume] at hc
  · simp [onSuccessResume] at hc

/-- C10: with a `null` new version, or with neither a migration plan nor an
auto-reconciliation schema declared, the upgrade handler returns without
constructing an upgrade service or forking any migration effect, and the open
subsequently resolves with the native handle. -/
theorem upgrade_handler_early_return (cfg : IDBDatabaseConfig) (oldVersion : Nat)
    (newVersion : Option Nat)
    (h : newVersion = none ∨ (cfg.onUpgradeNeeded = none ∧ cfg.autoObjectStores = none)) :
    runUpgradeHandler cfg oldVersion newVersion = none ∧
    ∀ exec result, openSuccessOutcome cfg oldVersion newVersion exec result =
      .resolved result := by
  have hnone : runUpgradeHandler cfg oldVersion newVersion = none := by
    rcases h with h | ⟨h1, h2⟩
    · subst h
      unfold runUpgradeHandler
      split <;> rfl
    · simp [runUpgradeHandler, h1, h2]
  exact ⟨hnone, fun exec result => by
    simp [openSuccessOutcome, hnone, onSuccessResume]⟩

/-- C10 witness: a configuration with a plan and a schema, upgrading while the
database is being deleted (`newVersion = null`). -/
theorem upgrade_handler_early_return_witness :
    runUpgradeHandler ⟨"contacts-db", none, some [], some [1]⟩ 2 none = none ∧
    openSuccessOutcome ⟨"contacts-db", none, some [], some [1]⟩ 2 none
      (fun _ => .ok ()) 7 = .resolved 7 :=
  ⟨(upgrade_handler_early_return ⟨"contacts-db", none, some [], some [1]⟩ 2 none
      (Or.inl rfl)).1,
    (upgrade_handler_early_return ⟨"contacts-db", none, some [], some [1]⟩ 2 none
      (Or.inl rfl)).2 (fun _ => .ok ()) 7⟩

theorem migrationLoop_eq_filterMap (cfg : IDBDatabaseConfig) :
    ∀ (n v : Nat), migrationLoop cfg v n =
      ((List.range n).map fun i => v + i).filterMap (amendedStepForVersion cfg) := by
  intro n
  induction n with
  | zero => intro v; rfl
  | succ m ih =>
    intro v
    rw [List.range_succ_eq_map]
    simp only [List.map_cons, List.map_map, List.filterMap_cons]
    have hmap : (List.range m).map ((fun i => v + i) ∘ Nat.succ) =
        (List.range m).map fun i => (v + 1) + i := by
      apply List.map_congr_left
      intro i _
      simp only [Function.comp_apply]
      omega
    rw [hmap, ← ih (v + 1)]
    show (if planHasVersion cfg v then [MigrationStep.explicitStep v]
        else if autoStoresNonempty cfg then [MigrationStep.autoReconcile]
        else []) ++ migrationLoop cfg (v + 1) m = _
    simp only [Nat.add_zero, amendedStepForVersion]
    split
    · rfl
    · split <;> rfl

/-- C1 amended: the migration unit built for an open upgrading from
`oldVersion` to `newVersion` is exactly the per-version step selection mapped
over the strictly ascending version range `oldVersion + 1 .. newVersion`:
the explicit step when the plan declares one, else auto-reconciliation when
`autoObjectStores` is declared and nonempty, else nothing. -/
theorem orderedMigrations_characterization :
    ∀ (cfg : IDBDatabaseConfig) (oldVersion newVersion : Nat),
      orderedMigrations cfg oldVersion newVersion =
        (versionRange oldVersion newVersion).filterMap (amendedStepForVersion cfg) ∧
      List.Pairwise (· < ·) (versionRange oldVersion newVersion) ∧
      (∀ v, v ∈ versionRange oldVersion newVersion ↔
        oldVersion + 1 ≤ v ∧ v ≤ newVersion) := by
  intro cfg oldVersion newVersion
  refine ⟨?_, ?_, ?_⟩
  · unfold orderedMigrations versionRange
    have harith : newVersion + 1 - (oldVersion + 1) = newVersion - oldVersion := by omega
    rw [harith, migrationLoop_eq_filterMap]
  · exact (List.pairwise_lt_range _).map _ (fun a b hab => by omega)
  · intro v
    unfold versionRange
    simp only [List.mem_map, List.mem_range]
    constructor
    · rintro ⟨i, hi, rfl⟩
      omega
    · rintro ⟨h1, h2⟩
      exact ⟨v - (oldVersion + 1), by omega, by omega⟩

/-- C1 counterexample: with a declared but empty schema
(`autoObjectStores = []`) and no explicit step, the built migration unit for
an open from version 0 to 1 is empty, while the claim's per-version selection
— auto-reconciliation whenever a schema declaration exists — yields an
auto-reconciliation step for version 1. -/
theorem emptySchema_fallback_refutes_claim :
    (IDBDatabaseConfig.mk "contacts-db" none (some []) none).autoObjectStores.isSome = true ∧
    orderedMigrations (IDBDatabaseConfig.mk "contacts-db" none (some []) none) 0 1 = [] ∧
    (versionRange 0 1).filterMap
        (claimedStepForVersion (IDBDatabaseConfig.mk "contacts-db" none (some []) none)) =
      [MigrationStep.autoReconcile] := by
  exact ⟨rfl, rfl, rfl⟩

theorem setAdd_idem (l : List String) (x : String) : setAdd (setAdd l x) x = setAdd l x := by
  by_cases hm : x ∈ l
  · simp [setAdd, hm]
  · simp [setAdd, hm]

theorem setAdd_nodup (l : List String) (x : String) (h : l.Nodup) : (setAdd l x).Nodup := by
  unfold setAdd
  split
  · exact h
  · refine List.Nodup.append h (List.nodup_singleton x) ?_
    intro a ha hb
    simp only [List.mem_singleton] at hb
    subst hb
    simp_all

theorem setAdd_count (l : List String) (x : String) (h : l.Nodup) :
    (setAdd l x).count x = 1 := by
  unfold setAdd
  split
  · rename_i hc
    have hm : x ∈ l := by simpa using hc
    have h1 : l.count x ≤ 1 := List.nodup_iff_count_le_one.mp h x
    have h2 : 0 < l.count x := List.count_pos_iff.mpr hm
    omega
  · rename_i hc
    have hm : x ∉ l := by simpa using hc
    rw [List.count_append]
    simp [List.count_eq_zero_of_not_mem hm]

theorem addStore_iterate_count (n : String) :
    ∀ (k : Nat) (r : RegistryState), r.storeNames.Nodup →
      (((fun s => RegistryState.addStore s n)^[k + 1]) r).storeNames.count n = 1 := by
  intro k
  induction k with
  | zero =>
    intro r h
    rw [Function.iterate_one]
    exact setAdd_count r.storeNames n h
  | succ m ih =>
    intro r h
    rw [Function.iterate_succ_apply]
    exact ih _ (setAdd_nodup r.storeNames n h)

/-- C9: `addStore` is idempotent — repeated registration of a name leaves
exactly one occurrence in the accumulating store set — and once a native
transaction is live it changes nothing observable about the scope's
transaction: the memoized handle is untouched and every subsequent store
access resolves to the same store reference against the same database state. -/
theorem addStore_idempotent_and_live_noop :
    (∀ (r : RegistryState) (n : String), (r.addStore n).addStore n = r.addStore n) ∧
    (∀ (r : RegistryState) (n : String) (k : Nat), r.storeNames.Nodup →
      (((fun s => RegistryState.addStore s n)^[k + 1]) r).storeNames.count n = 1) ∧
    (∀ (r : RegistryState) (n : String) (t : NativeTxn),
      r.liveTransaction = some t →
      (r.addStore n).liveTransaction = some t ∧
      ∀ (dbs : DBServiceState) (m : String),
        useObjectStore (r.addStore n) dbs m =
          (useObjectStore r dbs m).map fun x => (x.1, x.2.1.addStore n, x.2.2)) := by
  refine ⟨?_, fun r n k h => addStore_iterate_count n k r h, ?_⟩
  · intro r n
    simp [RegistryState.addStore, setAdd_idem]
  · intro r n t hlive
    have hlive' : (r.addStore n).liveTransaction = some t := hlive
    refine ⟨hlive', fun dbs m => ?_⟩
    simp only [useObjectStore, hlive, hlive']
    cases htx : txnObjectStore t m <;> simp [htx, Except.map]

/-- C9 witness: registering `"contacts"` twice from an empty set leaves one
occurrence, and registering a new name under a live transaction leaves the
memoized handle unchanged. -/
theorem addStore_idempotent_and_live_noop_witness :
    (((fun s => RegistryState.addStore s "contacts")^[2]) freshRegistry).storeNames.count
        "contacts" = 1 ∧
    (RegistryState.addStore ⟨["contacts"], .readwrite,
        some ⟨0, ["contacts"], .readwrite⟩⟩ "notes").liveTransaction =
      some ⟨0, ["contacts"], .readwrite⟩ :=
  ⟨addStore_idempotent_and_live_noop.2.1 freshRegistry "contacts" 1 (by decide),
    (addStore_idempotent_and_live_noop.2.2 ⟨["contacts"], .readwrite,
      some ⟨0, ["contacts"], .readwrite⟩⟩ "notes" ⟨0, ["contacts"], .readwrite⟩ rfl).1⟩

theorem registerStores_permission :
    ∀ (l : List String) (r : RegistryState), (registerStores r l).permission = r.permission := by
  intro l
  induction l with
  | nil => intro r; rfl
  | cons n rest ih => intro r; exact ih (r.addStore n)

theorem registerStores_live :
    ∀ (l : List String) (r : RegistryState),
      (registerStores r l).liveTransaction = r.liveTransaction := by
  intro l
  induction l with
  | nil => intro r; rfl
  | cons n rest ih => intro r; exact ih (r.addStore n)

theorem contains_isEmpty_false (l : List String) (a : String)
    (h : l.contains a = true) : l.isEmpty = false := by
  cases l with
  | nil => simp at h
  | cons x xs => rfl

theorem runRegistryOps_all_live (t : NativeTxn) :
    ∀ (accs : List String) (r : RegistryState) (dbs : DBServiceState),
      r.liveTransaction = some t →
      (∀ a ∈ accs, t.storeNames.contains a = true) →
      runRegistryOps r dbs (accs.map RegistryOp.useObjectStore) =
        .ok (r, dbs, accs.map fun a => ⟨t.id, a⟩) := by
  intro accs
  induction accs with
  | nil => intro r dbs _ _; rfl
  | cons a rest ih =>
    intro r dbs hlive hmem
    have ha : t.storeNames.contains a = true := hmem a (List.mem_cons_self a rest)
    have ham : a ∈ t.storeNames := by simpa using ha
    have hstep : useObjectStore r dbs a = .ok (⟨t.id, a⟩, r, dbs) := by
      simp [useObjectStore, hlive, txnObjectStore, ham]
    simp only [List.map_cons, runRegistryOps, hstep,
      ih r dbs hlive fun x hx => hmem x (List.mem_cons_of_mem a hx)]

/-- C3: within one scope, for any stores registered before the first access
and any nonempty sequence of accesses to registered stores, the first access
opens exactly one native transaction — covering the accumulated store set
under the bound permission, with exactly one entry pushed onto the transaction
history — memoizes it, and every subsequent access resolves against that same
transaction handle. -/
theorem single_transaction_per_scope
    (p : TxnMode) (regs accs : List String) (dbs0 : DBServiceState)
    (hne : accs ≠ [])
    (hmem : ∀ a ∈ accs,
      (registerStores (freshRegistry.setPermissions p) regs).storeNames.contains a = true) :
    ∃ t : NativeTxn,
      t.storeNames = (registerStores (freshRegistry.setPermissions p) regs).storeNames ∧
      t.mode = p ∧
      t.id = dbs0.nextTxnId ∧
      runRegistryOps (registerStores (freshRegistry.setPermissions p) regs) dbs0
          (accs.map RegistryOp.useObjectStore) =
        .ok (⟨t.storeNames, p, some t⟩,
          ⟨dbs0.transactionHistory ++ [⟨t.storeNames, p⟩], dbs0.nextTxnId + 1⟩,
          accs.map fun a => ⟨t.id, a⟩) := by
  rcases accs with _ | ⟨a, rest⟩
  · exact absurd rfl hne
  set r0 := registerStores (freshRegistry.setPermissions p) regs with hr0
  have hperm : r0.permission = p := registerStores_permission regs _
  have hlive : r0.liveTransaction = none := registerStores_live regs _
  have ha : r0.storeNames.contains a = true := hmem a (List.mem_cons_self a rest)
  have ham : a ∈ r0.storeNames := by simpa using ha
  have hnonempty : r0.storeNames.isEmpty = false := contains_isEmpty_false _ a ha
  refine ⟨⟨dbs0.nextTxnId, r0.storeNames, p⟩, rfl, rfl, rfl, ?_⟩
  have hmk : makeTransaction r0 dbs0 =
      .ok (⟨dbs0.nextTxnId, r0.storeNames, p⟩,
        ⟨r0.storeNames, p, some ⟨dbs0.nextTxnId, r0.storeNames, p⟩⟩,
        ⟨dbs0.transactionHistory ++ [⟨r0.storeNames, p⟩], dbs0.nextTxnId + 1⟩) := by
    rw [← hperm]
    simp [makeTransaction, hnonempty]
  have hstep : useObjectStore r0 dbs0 a =
      .ok (⟨dbs0.nextTxnId, a⟩,
        ⟨r0.storeNames, p, some ⟨dbs0.nextTxnId, r0.storeNames, p⟩⟩,
        ⟨dbs0.transactionHistory ++ [⟨r0.storeNames, p⟩], dbs0.nextTxnId + 1⟩) := by
    simp only [useObjectStore, hlive, hmk]
    simp [txnObjectStore, ham]
  have hrest := runRegistryOps_all_live ⟨dbs0.nextTxnId, r0.storeNames, p⟩ rest
    ⟨r0.storeNames, p, some ⟨dbs0.nextTxnId, r0.storeNames, p⟩⟩
    ⟨dbs0.transactionHistory ++ [⟨r0.storeNames, p⟩], dbs0.nextTxnId + 1⟩
    rfl
    (fun x hx => hmem x (List.mem_cons_of_mem a hx))
  simp only [List.map_cons, runRegistryOps, hstep, hrest]

/-- C3 witness: two stores registered, three accesses, one transaction. -/
theorem single_transaction_per_scope_witness :
    ∃ t : NativeTxn,
      t.storeNames = (registerStores (freshRegistry.setPermissions .readwrite)
        ["contacts", "notes"]).storeNames ∧
      t.mode = .readwrite ∧
      t.id = 0 ∧
      runRegistryOps (registerStores (freshRegistry.setPermissions .readwrite)
          ["contacts", "notes"]) ⟨[], 0⟩
          (["contacts", "notes", "contacts"].map RegistryOp.useObjectStore) =
        .ok (⟨t.storeNames, .readwrite, some t⟩,
          ⟨[] ++ [⟨t.storeNames, .readwrite⟩], 0 + 1⟩,
          ["contacts", "notes", "contacts"].map fun a => ⟨t.id, a⟩) :=
  single_transaction_per_scope .readwrite ["contacts", "notes"]
    ["contacts", "notes", "contacts"] ⟨[], 0⟩ (by decide) (by decide)

theorem runRegistryOps_txnId_tracking :
    ∀ (ops : List RegistryOp) (r : RegistryState) (dbs : DBServiceState)
      (r' : RegistryState) (dbs' : DBServiceState) (refs : List StoreRef),
      runRegistryOps r dbs ops = .ok (r', dbs', refs) →
      dbs.nextTxnId ≤ dbs'.nextTxnId ∧
      ∀ t', r'.liveTransaction = some t' →
        r.liveTransaction = some t' ∨
          (dbs.nextTxnId ≤ t'.id ∧ t'.id < dbs'.nextTxnId) := by
  intro ops
  induction ops with
  | nil =>
    intro r dbs r' dbs' refs h
    simp only [runRegistryOps] at h
    simp only [Except.ok.injEq, Prod.mk.injEq] at h
    obtain ⟨rfl, rfl, rfl⟩ := h
    exact ⟨Nat.le_refl _, fun t' ht' => Or.inl ht'⟩
  | cons op rest ih =>
    intro r dbs r' dbs' refs h
    cases op with
    | addStore n =>
      simp only [runRegistryOps] at h
      obtain ⟨hmono, hlive⟩ := ih _ _ _ _ _ h
      exact ⟨hmono, fun t' ht' => hlive t' ht'⟩
    | setPermissions pm =>
      simp only [runRegistryOps] at h
      obtain ⟨hmono, hlive⟩ := ih _ _ _ _ _ h
      exact ⟨hmono, fun t' ht' => hlive t' ht'⟩
    | useObjectStore n =>
      simp only [runRegistryOps] at h
      cases hl : r.liveTransaction with
      | some t =>
        simp only [useObjectStore, hl] at h
        cases hts : txnObjectStore t n with
        | error e =>
          rw [hts] at h
          simp at h
        | ok ref =>
          rw [hts] at h
          simp only [] at h
          cases hrun : runRegistryOps r dbs rest with
          | error e =>
            rw [hrun] at h
            simp at h
          | ok out =>
            obtain ⟨r'', dbs'', refs'⟩ := out
            rw [hrun] at h
            simp only [Except.ok.injEq, Prod.mk.injEq] at h
            obtain ⟨rfl, rfl, rfl⟩ := h
            obtain ⟨hmono, hlive⟩ := ih _ _ _ _ _ hrun
            refine ⟨hmono, fun t' ht' => ?_⟩
            rcases hlive t' ht' with h1 | h2
            · exact Or.inl (hl ▸ h1)
            · exact Or.inr h2
      | none =>
        simp only [useObjectStore, hl, makeTransaction] at h
        cases hie : r.storeNames.isEmpty with
        | true =>
          rw [hie] at h
          simp at h
        | false =>
          rw [hie] at h
          simp only [Bool.false_eq_true, if_false] at h
          cases hts : txnObjectStore ⟨dbs.nextTxnId, r.storeNames, r.permission⟩ n with
          | error e =>
            rw [hts] at h
            simp at h
          | ok ref =>
            rw [hts] at h
            simp only [] at h
            cases hrun : runRegistryOps
                { r with liveTransaction := some ⟨dbs.nextTxnId, r.storeNames, r.permission⟩ }
                ⟨dbs.transactionHistory ++ [⟨r.storeNames, r.permission⟩], dbs.nextTxnId + 1⟩
                rest with
            | error e =>
              rw [hrun] at h
              simp at h
            | ok out =>
              obtain ⟨r'', dbs'', refs'⟩ := out
              rw [hrun] at h
              simp only [Except.ok.injEq, Prod.mk.injEq] at h
              obtain ⟨rfl, rfl, rfl⟩ := h
              obtain ⟨hmono, hlive⟩ := ih _ _ _ _ _ hrun
              have hmono' : dbs.nextTxnId + 1 ≤ dbs''.nextTxnId := hmono
              refine ⟨by omega, fun t' ht' => ?_⟩
              rcases hlive t' ht' with h1 | h2
              · have h1' : some (⟨dbs.nextTxnId, r.storeNames, r.permission⟩ : NativeTxn) =
                    some t' := h1
                injection h1' with h1'
                subst h1'
                right
                refine ⟨Nat.le_refl _, ?_⟩
                show dbs.nextTxnId < dbs''.nextTxnId
                omega
              · have h21 : dbs.nextTxnId + 1 ≤ t'.id := h2.1
                right
                exact ⟨by omega, h2.2⟩

/-- C4: two scopes run one after the other, each with a fresh registry, never
share a native transaction: the first scope's memoized transaction was created
before the second scope started, the second scope's memoized transaction is
created afresh within the second scope, and the two handles are distinct. -/
theorem scopes_use_distinct_transactions
    (ops1 ops2 : List RegistryOp) (p1 p2 : TxnMode) (dbs0 : DBServiceState)
    (r1 r2 : RegistryState) (dbs1 dbs2 : DBServiceState) (refs1 refs2 : List StoreRef)
    (t1 t2 : NativeTxn)
    (h1 : runRegistryOps (freshRegistry.setPermissions p1) dbs0 ops1 = .ok (r1, dbs1, refs1))
    (h2 : runRegistryOps (freshRegistry.setPermissions p2) dbs1 ops2 = .ok (r2, dbs2, refs2))
    (hl1 : r1.liveTransaction = some t1) (hl2 : r2.liveTransaction = some t2) :
    t1.id < dbs1.nextTxnId ∧ dbs1.nextTxnId ≤ t2.id ∧ t1 ≠ t2 := by
  obtain ⟨_, hlive1⟩ := runRegistryOps_txnId_tracking ops1 _ dbs0 r1 dbs1 refs1 h1
  obtain ⟨_, hlive2⟩ := runRegistryOps_txnId_tracking ops2 _ dbs1 r2 dbs2 refs2 h2
  have hb1 : t1.id < dbs1.nextTxnId := by
    rcases hlive1 t1 hl1 with hc | hc
    · exact absurd hc (by simp [freshRegistry, RegistryState.setPermissions])
    · exact hc.2
  have hb2 : dbs1.nextTxnId ≤ t2.id := by
    rcases hlive2 t2 hl2 with hc | hc
    · exact absurd hc (by simp [freshRegistry, RegistryState.setPermissions])
    · exact hc.1
  refine ⟨hb1, hb2, fun hEq => ?_⟩
  rw [hEq] at hb1
  omega

/-- C4 witness: two sequential scopes touching the same store name obtain
distinct native transactions. -/
theorem scopes_use_distinct_transactions_witness :
    (NativeTxn.mk 0 ["contacts"] .readwrite).id < 1 ∧
    (1 : Nat) ≤ (NativeTxn.mk 1 ["contacts"] .readwrite).id ∧
    NativeTxn.mk 0 ["contacts"] .readwrite ≠ NativeTxn.mk 1 ["contacts"] .readwrite :=
  scopes_use_distinct_transactions
    [.addStore "contacts", .useObjectStore "contacts"]
    [.addStore "contacts", .useObjectStore "contacts"]
    .readwrite .readwrite ⟨[], 0⟩
    ⟨["contacts"], .readwrite, some ⟨0, ["contacts"], .readwrite⟩⟩
    ⟨["contacts"], .readwrite, some ⟨1, ["contacts"], .readwrite⟩⟩
    ⟨[⟨["contacts"], .readwrite⟩], 1⟩
    ⟨[⟨["contacts"], .readwrite⟩, ⟨["contacts"], .readwrite⟩], 2⟩
    [⟨0, "contacts"⟩] [⟨1, "contacts"⟩]
    ⟨0, ["contacts"], .readwrite⟩ ⟨1, ["contacts"], .readwrite⟩
    (by rfl) (by rfl) rfl rfl

theorem find_append_some {α : Type} (l1 l2 : List α) (f : α → Bool) (x : α)
    (h : l1.find? f = some x) : (l1 ++ l2).find? f = some x := by
  induction l1 with
  | nil => simp at h
  | cons a rest ih =>
    by_cases hfa : f a
    · rw [List.find?_cons_of_pos _ hfa] at h
      rw [List.cons_append, List.find?_cons_of_pos _ hfa]
      exact h
    · rw [List.find?_cons_of_neg _ hfa] at h
      rw [List.cons_append, List.find?_cons_of_neg _ hfa]
      exact ih h

theorem find_append_none {α : Type} (l1 l2 : List α) (f : α → Bool)
    (h : l1.find? f = none) : (l1 ++ l2).find? f = l2.find? f := by
  induction l1 with
  | nil => rfl
  | cons a rest ih =>
    by_cases hfa : f a
    · rw [List.find?_cons_of_pos _ hfa] at h
      cases h
    · rw [List.find?_cons_of_neg _ hfa] at h
      rw [List.cons_append, List.find?_cons_of_neg _ hfa]
      exact ih h

theorem find_filter_frame {α : Type} (l : List α) (q f : α → Bool)
    (himp : ∀ x, f x = true → q x = true) :
    (l.filter q).find? f = l.find? f := by
  induction l with
  | nil => rfl
  | cons a rest ih =>
    by_cases hfa : f a
    · have hqa : q a = true := himp a hfa
      rw [List.filter_cons_of_pos hqa, List.find?_cons_of_pos _ hfa,
        List.find?_cons_of_pos _ hfa]
    · by_cases hqa : q a
      · rw [List.filter_cons_of_pos hqa, List.find?_cons_of_neg _ hfa,
          List.find?_cons_of_neg _ hfa]
        exact ih
      · rw [List.filter_cons_of_neg (by simpa using hqa), List.find?_cons_of_neg _ hfa]
        exact ih

theorem indexNamed_eq_some {st : NativeStore} {n : String} {ix : NativeIndex}
    (h : st.indexNamed n = some ix) : ix ∈ st.indexes ∧ ix.name = n := by
  unfold NativeStore.indexNamed at h
  exact ⟨List.mem_of_find?_eq_some h, by simpa using List.find?_some h⟩

theorem indexNamed_eq_none {st : NativeStore} {n : String}
    (h : st.indexNamed n = none) : ∀ ix ∈ st.indexes, ix.name ≠ n := by
  unfold NativeStore.indexNamed at h
  intro ix hmem
  have := List.find?_eq_none.mp h ix hmem
  simpa using this

theorem indexNamed_isSome_of_mem {st : NativeStore} {ix : NativeIndex}
    (hmem : ix ∈ st.indexes) : st.hasIndex ix.name = true := by
  unfold NativeStore.hasIndex
  cases hfind : st.indexNamed ix.name with
  | some _ => rfl
  | none => exact absurd rfl (indexNamed_eq_none hfind ix hmem)

/-- An index declared with fully specified options (or none at all) never
triggers recreation against the native index its own creation produced. -/
theorem indexNeedsRecreate_mk_self (p : IDBObjectStoreIndexParams)
    (h : (match p.options with
      | none => true
      | some o => o.unique.isSome && o.multiEntry.isSome) = true) :
    indexNeedsRecreate p (mkNativeIndex p) = false := by
  have hk : keyPathsMatch p.keyPath p.keyPath = true :=
    (keyPathsMatch_iff_eq _ _).mpr rfl
  unfold indexNeedsRecreate
  cases hp : p.options with
  | none =>
    simp [optionsUniqueMismatch, optionsMultiEntryMismatch, mkNativeIndex, hp, hk]
  | some o =>
    rw [hp] at h
    simp only [Bool.and_eq_true, Option.isSome_iff_exists] at h
    obtain ⟨⟨u, hu⟩, ⟨m, hm⟩⟩ := h
    simp [optionsUniqueMismatch, optionsMultiEntryMismatch, mkNativeIndex, hp, hu, hm, hk]

theorem reconcileIndexes_cons_inv {snapshot : List String}
    {st st2 : NativeStore} {p : IDBObjectStoreIndexParams}
    {rest : List IDBObjectStoreIndexParams} {ops : List SchemaOp}
    (h : reconcileIndexes snapshot st (p :: rest) = .ok (st2, ops)) :
    ∃ st1 ops1 ops2, reconcileIndex snapshot st p = .ok (st1, ops1) ∧
      reconcileIndexes snapshot st1 rest = .ok (st2, ops2) ∧ ops = ops1 ++ ops2 := by
  have hdef : reconcileIndexes snapshot st (p :: rest) =
      (match reconcileIndex snapshot st p with
       | .error e => .error e
       | .ok (st1, ops1) =>
         match reconcileIndexes snapshot st1 rest with
         | .error e => .error e
         | .ok (st2', ops2) => .ok (st2', ops1 ++ ops2)) := rfl
  rw [hdef] at h
  cases hx : reconcileIndex snapshot st p with
  | error e => rw [hx] at h; simp at h
  | ok out1 =>
    obtain ⟨st1, ops1⟩ := out1
    rw [hx] at h
    simp only [] at h
    cases hy : reconcileIndexes snapshot st1 rest with
    | error e => rw [hy] at h; simp at h
    | ok out2 =>
      obtain ⟨st2', ops2⟩ := out2
      rw [hy] at h
      simp only [Except.ok.injEq, Prod.mk.injEq] at h
      obtain ⟨rfl, rfl⟩ := h
      exact ⟨st1, ops1, ops2, rfl, hy, rfl⟩

theorem addStoreIndex_ok_inv {st st' : NativeStore} {p : IDBObjectStoreIndexParams}
    {ops : List SchemaOp} (h : addStoreIndex st p = .ok (st', ops)) :
    st.hasIndex p.name = false ∧
    st' = ⟨st.name, st.params, st.indexes ++ [mkNativeIndex p]⟩ ∧
    ops = [.createIndex st.name p] := by
  unfold addStoreIndex storeCreateIndex at h
  by_cases hhas : st.hasIndex p.name = true
  · rw [if_pos hhas] at h
    simp [CreateObjectStoreIndexExceptionTypes] at h
  · have hf : st.hasIndex p.name = false := by simpa using hhas
    rw [if_neg (by simp [hf])] at h
    simp only [Except.ok.injEq, Prod.mk.injEq] at h
    obtain ⟨rfl, rfl⟩ := h
    exact ⟨hf, rfl, rfl⟩

theorem reconcileIndex_cases {snapshot : List String} {st st1 : NativeStore}
    {p : IDBObjectStoreIndexParams} {ops1 : List SchemaOp}
    (h : reconcileIndex snapshot st p = .ok (st1, ops1)) :
    (∃ old, snapshot.contains p.name = true ∧ st.indexNamed p.name = some old ∧
      ((indexNeedsRecreate p old = false ∧ st1 = st ∧ ops1 = []) ∨
       (indexNeedsRecreate p old = true ∧
        st1 = ⟨st.name, st.params,
          (st.indexes.filter fun ix => ix.name != p.name) ++ [mkNativeIndex p]⟩ ∧
        ops1 = [.deleteIndex st.name p.name, .createIndex st.name p]))) ∨
    (snapshot.contains p.name = false ∧ st.hasIndex p.name = false ∧
     st1 = ⟨st.name, st.params, st.indexes ++ [mkNativeIndex p]⟩ ∧
     ops1 = [.createIndex st.name p]) := by
  unfold reconcileIndex at h
  by_cases hc : snapshot.contains p.name = true
  · rw [if_pos hc] at h
    left
    cases hfind : st.indexNamed p.name with
    | none => rw [hfind] at h; simp at h
    | some old =>
      rw [hfind] at h
      simp only [] at h
      refine ⟨old, hc, rfl, ?_⟩
      by_cases hrec : indexNeedsRecreate p old = true
      · rw [if_pos hrec] at h
        right
        have hhas : st.hasIndex p.name = true := by
          unfold NativeStore.hasIndex
          rw [hfind]
          rfl
        have hdel : storeDeleteIndex st p.name =
            .ok { st with indexes := st.indexes.filter fun ix => ix.name != p.name } := by
          unfold storeDeleteIndex
          rw [if_pos hhas]
        rw [hdel] at h
        simp only [] at h
        cases hadd : addStoreIndex
            { st with indexes := st.indexes.filter fun ix => ix.name != p.name } p with
        | error e => rw [hadd] at h; simp at h
        | ok out =>
          obtain ⟨st'', ops''⟩ := out
          rw [hadd] at h
          simp only [] at h
          obtain ⟨_, hst'', hops''⟩ := addStoreIndex_ok_inv hadd
          simp only [Except.ok.injEq, Prod.mk.injEq] at h
          obtain ⟨rfl, rfl⟩ := h
          refine ⟨hrec, ?_, ?_⟩
          · exact hst''
          · rw [hops'']
      · rw [if_neg hrec] at h
        simp only [Except.ok.injEq, Prod.mk.injEq] at h
        obtain ⟨rfl, rfl⟩ := h
        exact Or.inl ⟨by simpa using hrec, rfl, rfl⟩
  · rw [if_neg hc] at h
    right
    obtain ⟨hhas, hst, hops⟩ := addStoreIndex_ok_inv h
    exact ⟨by simpa using hc, hhas, hst, hops⟩

theorem wf_delete_create (l : List NativeIndex) (p : IDBObjectStoreIndexParams)
    (h : (l.map NativeIndex.name).Nodup) :
    (((l.filter fun ix => ix.name != p.name) ++ [mkNativeIndex p]).map
      NativeIndex.name).Nodup := by
  rw [List.map_append]
  refine List.Nodup.append ?_ (List.nodup_singleton _) ?_
  · exact ((List.filter_sublist l).map NativeIndex.name).nodup h
  · intro a ha hb
    simp only [List.map_cons, List.map_nil, List.mem_singleton] at hb
    subst hb
    simp only [List.mem_map] at ha
    obtain ⟨ix, hmem, hname⟩ := ha
    have := (List.mem_filter.mp hmem).2
    rw [hname] at this
    simp [mkNativeIndex] at this

theorem wf_append_create (l : List NativeIndex) (p : IDBObjectStoreIndexParams)
    (h : (l.map NativeIndex.name).Nodup)
    (habs : ∀ ix ∈ l, ix.name ≠ p.name) :
    ((l ++ [mkNativeIndex p]).map NativeIndex.name).Nodup := by
  rw [List.map_append]
  refine List.Nodup.append h (List.nodup_singleton _) ?_
  intro a ha hb
  simp only [List.map_cons, List.map_nil, List.mem_singleton] at hb
  subst hb
  simp only [List.mem_map] at ha
  obtain ⟨ix, hmem, hname⟩ := ha
  exact habs ix hmem (by simpa [mkNativeIndex] using hname)

theorem indexNamed_delete_create_self (st : NativeStore) (p : IDBObjectStoreIndexParams) :
    (⟨st.name, st.params,
      (st.indexes.filter fun ix => ix.name != p.name) ++ [mkNativeIndex p]⟩ :
        NativeStore).indexNamed p.name = some (mkNativeIndex p) := by
  unfold NativeStore.indexNamed
  have hnone : (st.indexes.filter fun ix => ix.name != p.name).find?
      (fun ix => ix.name == p.name) = none := by
    rw [List.find?_eq_none]
    intro ix hmem
    have := (List.mem_filter.mp hmem).2
    simpa using this
  rw [find_append_none _ _ _ hnone]
  simp [mkNativeIndex]

theorem indexNamed_delete_create_frame (st : NativeStore) (p : IDBObjectStoreIndexParams)
    (m : String) (hm : m ≠ p.name) :
    (⟨st.name, st.params,
      (st.indexes.filter fun ix => ix.name != p.name) ++ [mkNativeIndex p]⟩ :
        NativeStore).indexNamed m = st.indexNamed m := by
  unfold NativeStore.indexNamed
  have hff : (st.indexes.filter fun ix => ix.name != p.name).find? (fun ix => ix.name == m) =
      st.indexes.find? (fun ix => ix.name == m) := by
    apply find_filter_frame
    intro x hx
    simp only [beq_iff_eq] at hx
    simp [hx, hm]
  cases hfind : st.indexes.find? (fun ix => ix.name == m) with
  | some x =>
    rw [find_append_some _ _ _ _ (hff.trans hfind)]
  | none =>
    rw [find_append_none _ _ _ (hff.trans hfind)]
    simp [mkNativeIndex]
    exact fun h => hm h.symm

theorem indexNamed_append_self (st : NativeStore) (p : IDBObjectStoreIndexParams)
    (hhas : st.hasIndex p.name = false) :
    (⟨st.name, st.params, st.indexes ++ [mkNativeIndex p]⟩ :
        NativeStore).indexNamed p.name = some (mkNativeIndex p) := by
  unfold NativeStore.indexNamed
  have hnone : st.indexes.find? (fun ix => ix.name == p.name) = none := by
    unfold NativeStore.hasIndex NativeStore.indexNamed at hhas
    cases hfind : st.indexes.find? (fun ix => ix.name == p.name) with
    | some x => rw [hfind] at hhas; cases hhas
    | none => rfl
  rw [find_append_none _ _ _ hnone]
  simp [mkNativeIndex]

theorem indexNamed_append_frame (st : NativeStore) (p : IDBObjectStoreIndexParams)
    (m : String) (hm : m ≠ p.name) :
    (⟨st.name, st.params, st.indexes ++ [mkNativeIndex p]⟩ :
        NativeStore).indexNamed m = st.indexNamed m := by
  unfold NativeStore.indexNamed
  cases hfind : st.indexes.find? (fun ix => ix.name == m) with
  | some x => rw [find_append_some _ _ _ _ hfind]
  | none =>
    rw [find_append_none _ _ _ hfind]
    simp [mkNativeIndex]
    exact fun h => hm h.symm

/-- What one pass of the declared-index loop guarantees, relative to the store
state `st` it entered with: structure fields preserved, undeclared names
untouched, every resulting index either declared or pre-existing, and each
declared index kept (when matching), deleted-and-recreated (on mismatch,
with both schema operations performed), or created (when absent). -/
def ReconcileSpec (incs : List IDBObjectStoreIndexParams)
    (st st' : NativeStore) (ops : List SchemaOp) : Prop :=
  st'.wf ∧ st'.name = st.name ∧ st'.params = st.params ∧
  (∀ n, n ∉ incs.map IDBObjectStoreIndexParams.name →
    st'.indexNamed n = st.indexNamed n) ∧
  (∀ ni ∈ st'.indexes,
    ni.name ∈ incs.map IDBObjectStoreIndexParams.name ∨ ni ∈ st.indexes) ∧
  (∀ p ∈ incs,
    (∀ old, st.indexNamed p.name = some old →
      (indexNeedsRecreate p old = false → st'.indexNamed p.name = some old) ∧
      (indexNeedsRecreate p old = true →
        SchemaOp.deleteIndex st.name p.name ∈ ops ∧
        SchemaOp.createIndex st.name p ∈ ops ∧
        st'.indexNamed p.name = some (mkNativeIndex p))) ∧
    (st.indexNamed p.name = none →
      SchemaOp.createIndex st.name p ∈ ops ∧
      st'.indexNamed p.name = some (mkNativeIndex p)))

theorem ReconcileSpec_compose
    (st st1 st' : NativeStore) (p : IDBObjectStoreIndexParams)
    (rest : List IDBObjectStoreIndexParams) (ops1 ops2 : List SchemaOp)
    (hIH : ReconcileSpec rest st1 st' ops2)
    (hname1 : st1.name = st.name) (hparams1 : st1.params = st.params)
    (hframe1 : ∀ m, m ≠ p.name → st1.indexNamed m = st.indexNamed m)
    (hprov1 : ∀ ni ∈ st1.indexes, ni.name = p.name ∨ ni ∈ st.indexes)
    (hnotin : p.name ∉ rest.map IDBObjectStoreIndexParams.name)
    (hheadOld : ∀ old, st.indexNamed p.name = some old →
      (indexNeedsRecreate p old = false → st1.indexNamed p.name = some old) ∧
      (indexNeedsRecreate p old = true →
        SchemaOp.deleteIndex st.name p.name ∈ ops1 ∧
        SchemaOp.createIndex st.name p ∈ ops1 ∧
        st1.indexNamed p.name = some (mkNativeIndex p)))
    (hheadNone : st.indexNamed p.name = none →
      SchemaOp.createIndex st.name p ∈ ops1 ∧
      st1.indexNamed p.name = some (mkNativeIndex p)) :
    ReconcileSpec (p :: rest) st st' (ops1 ++ ops2) := by
  obtain ⟨hwf, hname, hparams, hframe, hprov, hper⟩ := hIH
  have hheadFrame : st'.indexNamed p.name = st1.indexNamed p.name :=
    hframe p.name hnotin
  refine ⟨hwf, hname.trans hname1, hparams.trans hparams1, ?_, ?_, ?_⟩
  · intro n hn
    simp only [List.map_cons, List.mem_cons, not_or] at hn
    exact (hframe n hn.2).trans (hframe1 n hn.1)
  · intro ni hni
    rcases hprov ni hni with hin | hin
    · exact Or.inl (by simp [hin])
    · rcases hprov1 ni hin with heq | hmem
      · exact Or.inl (by simp [heq])
      · exact Or.inr hmem
  · intro q hq
    rcases List.mem_cons.mp hq with rfl | hqrest
    · -- the head index
      refine ⟨fun old hfind => ?_, fun hfind => ?_⟩
      · obtain ⟨hkeep, hrecreate⟩ := hheadOld old hfind
        refine ⟨fun hf => ?_, fun ht => ?_⟩
        · rw [hheadFrame]
          exact hkeep hf
        · obtain ⟨hdel, hcre, hself⟩ := hrecreate ht
          exact ⟨List.mem_append_left _ hdel, List.mem_append_left _ hcre,
            hheadFrame.trans hself⟩
      · obtain ⟨hcre, hself⟩ := hheadNone hfind
        exact ⟨List.mem_append_left _ hcre, hheadFrame.trans hself⟩
    · -- an index of the tail
      have hqname : q.name ≠ p.name := by
        intro hEq
        exact hnotin (hEq ▸ List.mem_map_of_mem IDBObjectStoreIndexParams.name hqrest)
      have hqframe : st1.indexNamed q.name = st.indexNamed q.name :=
        hframe1 q.name hqname
      obtain ⟨hqOld, hqNone⟩ := hper q hqrest
      refine ⟨fun old hfind => ?_, fun hfind => ?_⟩
      · obtain ⟨hkeep, hrecreate⟩ := hqOld old (hqframe.trans hfind)
        refine ⟨fun hf => hkeep hf, fun ht => ?_⟩
        obtain ⟨hdel, hcre, hself⟩ := hrecreate ht
        rw [hname1] at hdel hcre
        exact ⟨List.mem_append_right _ hdel, List.mem_append_right _ hcre, hself⟩
      · obtain ⟨hcre, hself⟩ := hqNone (hqframe.trans hfind)
        rw [hname1] at hcre
        exact ⟨List.mem_append_right _ hcre, hself⟩

theorem reconcileIndexes_spec (snapshot : List String) :
    ∀ (incs : List IDBObjectStoreIndexParams) (st st' : NativeStore) (ops : List SchemaOp),
      reconcileIndexes snapshot st incs = .ok (st', ops) →
      st.wf →
      (incs.map IDBObjectStoreIndexParams.name).Nodup →
      (∀ p ∈ incs, snapshot.contains p.name = st.hasIndex p.name) →
      ReconcileSpec incs st st' ops := by
  intro incs
  induction incs with
  | nil =>
    intro st st' ops h hwf hnd hsnap
    simp only [reconcileIndexes, Except.ok.injEq, Prod.mk.injEq] at h
    obtain ⟨rfl, rfl⟩ := h
    exact ⟨hwf, rfl, rfl, fun n _ => rfl, fun ni hni => Or.inr hni,
      fun p hp => absurd hp (List.not_mem_nil p)⟩
  | cons p rest ih =>
    intro st st' ops h hwf hnd hsnap
    obtain ⟨st1, ops1, ops2, hstep, hrest, rfl⟩ := reconcileIndexes_cons_inv h
    rw [List.map_cons] at hnd
    have hnd' := List.nodup_cons.mp hnd
    have hnotin : p.name ∉ rest.map IDBObjectStoreIndexParams.name := hnd'.1
    have hndrest : (rest.map IDBObjectStoreIndexParams.name).Nodup := hnd'.2
    have hqnames : ∀ q ∈ rest, q.name ≠ p.name := by
      intro q hq hEq
      exact hnotin (hEq ▸ List.mem_map_of_mem IDBObjectStoreIndexParams.name hq)
    rcases reconcileIndex_cases hstep with
      ⟨old, hc, hfind, hcase⟩ | ⟨hc, hhas, hst1, hops1⟩
    · rcases hcase with ⟨hnr, heq, rfl⟩ | ⟨hnr, rfl, rfl⟩
      · -- kept unchanged: matching index
        rw [heq] at hrest
        have hIH := ih st st' ops2 hrest hwf hndrest
          (fun q hq => hsnap q (List.mem_cons_of_mem p hq))
        refine ReconcileSpec_compose st st st' p rest [] ops2 hIH rfl rfl
          (fun m _ => rfl) (fun ni hin => Or.inr hin) hnotin ?_ ?_
        · intro old' hfind'
          rw [hfind] at hfind'
          injection hfind' with he
          subst he
          refine ⟨fun _ => hfind, fun ht => ?_⟩
          rw [hnr] at ht
          cases ht
        · intro hfind'
          rw [hfind] at hfind'
          cases hfind'
      · -- deleted and recreated: mismatching index
        have hframe1 := indexNamed_delete_create_frame st p
        have hwf1 : (⟨st.name, st.params,
            (st.indexes.filter fun ix => ix.name != p.name) ++ [mkNativeIndex p]⟩ :
              NativeStore).wf := wf_delete_create st.indexes p hwf
        have hsnap1 : ∀ q ∈ rest, snapshot.contains q.name =
            (⟨st.name, st.params,
              (st.indexes.filter fun ix => ix.name != p.name) ++ [mkNativeIndex p]⟩ :
                NativeStore).hasIndex q.name := by
          intro q hq
          have : (⟨st.name, st.params,
              (st.indexes.filter fun ix => ix.name != p.name) ++ [mkNativeIndex p]⟩ :
                NativeStore).hasIndex q.name = st.hasIndex q.name := by
            unfold NativeStore.hasIndex
            rw [hframe1 q.name (hqnames q hq)]
          rw [this]
          exact hsnap q (List.mem_cons_of_mem p hq)
        have hIH := ih _ st' ops2 hrest hwf1 hndrest hsnap1
        refine ReconcileSpec_compose st _ st' p rest _ ops2 hIH rfl rfl hframe1
          ?_ hnotin ?_ ?_
        · intro ni hin
          rcases List.mem_append.mp hin with hmem | hmem
          · exact Or.inr (List.mem_filter.mp hmem).1
          · simp only [List.mem_singleton] at hmem
            subst hmem
            exact Or.inl rfl
        · intro old' hfind'
          rw [hfind] at hfind'
          injection hfind' with he
          subst he
          refine ⟨fun hf => ?_, fun _ => ?_⟩
          · rw [hnr] at hf
            cases hf
          · exact ⟨by simp, by simp, indexNamed_delete_create_self st p⟩
        · intro hfind'
          rw [hfind] at hfind'
          cases hfind'
    · -- created: absent index
      subst hst1
      subst hops1
      have hfindnone : st.indexNamed p.name = none := by
        unfold NativeStore.hasIndex at hhas
        cases hfind : st.indexNamed p.name with
        | some x => rw [hfind] at hhas; cases hhas
        | none => rfl
      have hframe1 := indexNamed_append_frame st p
      have hwf1 : (⟨st.name, st.params, st.indexes ++ [mkNativeIndex p]⟩ :
          NativeStore).wf :=
        wf_append_create st.indexes p hwf (indexNamed_eq_none hfindnone)
      have hsnap1 : ∀ q ∈ rest, snapshot.contains q.name =
          (⟨st.name, st.params, st.indexes ++ [mkNativeIndex p]⟩ :
            NativeStore).hasIndex q.name := by
        intro q hq
        have : (⟨st.name, st.params, st.indexes ++ [mkNativeIndex p]⟩ :
            NativeStore).hasIndex q.name = st.hasIndex q.name := by
          unfold NativeStore.hasIndex
          rw [hframe1 q.name (hqnames q hq)]
        rw [this]
        exact hsnap q (List.mem_cons_of_mem p hq)
      have hIH := ih _ st' ops2 hrest hwf1 hndrest hsnap1
      refine ReconcileSpec_compose st _ st' p rest _ ops2 hIH rfl rfl hframe1
        ?_ hnotin ?_ ?_
      · intro ni hin
        rcases List.mem_append.mp hin with hmem | hmem
        · exact Or.inr hmem
        · simp only [List.mem_singleton] at hmem
          subst hmem
          exact Or.inl rfl
      · intro old' hfind'
        rw [hfindnone] at hfind'
        cases hfind'
      · intro _
        exact ⟨by simp, indexNamed_append_self st p hhas⟩

theorem hasIndex_false_of_subset {st' st : NativeStore} {n : String}
    (hsub : ∀ ni ∈ st'.indexes, ni ∈ st.indexes)
    (h : st.hasIndex n = false) : st'.hasIndex n = false := by
  unfold NativeStore.hasIndex
  cases hfind : st'.indexNamed n with
  | none => rfl
  | some x =>
    obtain ⟨hmem, hname⟩ := indexNamed_eq_some hfind
    have := indexNamed_isSome_of_mem (hsub x hmem)
    rw [hname] at this
    rw [this] at h
    cases h

theorem deleteDeprecatedIndexes_spec (declared : List IDBObjectStoreIndexParams) :
    ∀ (l : List String) (st st' : NativeStore) (ops : List SchemaOp),
      deleteDeprecatedIndexes declared st l = .ok (st', ops) →
      st'.name = st.name ∧ st'.params = st.params ∧
      (st.wf → st'.wf) ∧
      (∀ n, declared.any (fun ix => ix.name == n) = true →
        st'.indexNamed n = st.indexNamed n) ∧
      (∀ ni ∈ st'.indexes, ni ∈ st.indexes) ∧
      (∀ n ∈ l, declared.any (fun ix => ix.name == n) = false →
        SchemaOp.deleteIndex st.name n ∈ ops ∧ st'.hasIndex n = false) := by
  intro l
  induction l with
  | nil =>
    intro st st' ops h
    simp only [deleteDeprecatedIndexes, Except.ok.injEq, Prod.mk.injEq] at h
    obtain ⟨rfl, rfl⟩ := h
    exact ⟨rfl, rfl, fun hw => hw, fun n _ => rfl, fun ni hni => hni,
      fun n hn => absurd hn (List.not_mem_nil n)⟩
  | cons n rest ih =>
    intro st st' ops h
    by_cases hdecl : declared.any (fun ix => ix.name == n) = true
    · simp only [deleteDeprecatedIndexes] at h
      rw [if_pos hdecl] at h
      obtain ⟨h1, h2, h3, h4, h5, h6⟩ := ih st st' ops h
      refine ⟨h1, h2, h3, h4, h5, fun m hm hany => ?_⟩
      rcases List.mem_cons.mp hm with rfl | hmrest
      · rw [hdecl] at hany
        cases hany
      · exact h6 m hmrest hany
    · have hdeclf : declared.any (fun ix => ix.name == n) = false := by
        simpa using hdecl
      simp only [deleteDeprecatedIndexes] at h
      rw [if_neg (by simp [hdeclf])] at h
      cases hdel : storeDeleteIndex st n with
      | error e => rw [hdel] at h; simp at h
      | ok st1 =>
        rw [hdel] at h
        simp only [] at h
        have hst1 : st1 = { st with indexes := st.indexes.filter fun ix => ix.name != n } ∧
            st.hasIndex n = true := by
          unfold storeDeleteIndex at hdel
          by_cases hhas : st.hasIndex n = true
          · rw [if_pos hhas] at hdel
            simp only [Except.ok.injEq] at hdel
            exact ⟨hdel.symm, hhas⟩
          · rw [if_neg hhas] at hdel
            cases hdel
        obtain ⟨rfl, hhas⟩ := hst1
        cases hrec : deleteDeprecatedIndexes declared
            { st with indexes := st.indexes.filter fun ix => ix.name != n } rest with
        | error e => rw [hrec] at h; simp at h
        | ok out =>
          obtain ⟨st'', ops''⟩ := out
          rw [hrec] at h
          simp only [Except.ok.injEq, Prod.mk.injEq] at h
          obtain ⟨rfl, rfl⟩ := h
          obtain ⟨h1, h2, h3, h4, h5, h6⟩ := ih _ st'' ops'' hrec
          have hsub1 : ∀ ni ∈ ({ st with
              indexes := st.indexes.filter fun ix => ix.name != n } :
                NativeStore).indexes, ni ∈ st.indexes := by
            intro ni hni
            exact (List.mem_filter.mp hni).1
          have hne1 : ({ st with
              indexes := st.indexes.filter fun ix => ix.name != n } :
                NativeStore).hasIndex n = false := by
            unfold NativeStore.hasIndex NativeStore.indexNamed
            cases hfind : (st.indexes.filter fun ix => ix.name != n).find?
                (fun ix => ix.name == n) with
            | none => rfl
            | some x =>
              have hmem := List.mem_of_find?_eq_some hfind
              have hpred := List.find?_some hfind
              have := (List.mem_filter.mp hmem).2
              simp only [beq_iff_eq] at hpred
              rw [hpred] at this
              simp at this
          have hwf1 : st.wf → ({ st with
              indexes := st.indexes.filter fun ix => ix.name != n } :
                NativeStore).wf := by
            intro hw
            exact ((List.filter_sublist st.indexes).map NativeIndex.name).nodup hw
          refine ⟨h1, h2, fun hw => h3 (hwf1 hw), ?_, ?_, ?_⟩
          · intro m hany
            have hmn : m ≠ n := by
              intro hEq
              rw [hEq, hdeclf] at hany
              cases hany
            rw [h4 m hany]
            unfold NativeStore.indexNamed
            apply find_filter_frame
            intro x hx
            simp only [beq_iff_eq] at hx
            simp [hx, hmn]
          · intro ni hni
            exact hsub1 ni (h5 ni hni)
          · intro m hm hany
            rcases List.mem_cons.mp hm with rfl | hmrest
            · exact ⟨List.mem_cons_self _ _,
                hasIndex_false_of_subset h5 hne1⟩
            · obtain ⟨hmem, hfalse⟩ := h6 m hmrest hany
              exact ⟨List.mem_cons_of_mem _ hmem, hfalse⟩

theorem deleteDeprecatedIndexes_noop (declared : List IDBObjectStoreIndexParams) :
    ∀ (l : List String) (st : NativeStore),
      (∀ n ∈ l, declared.any (fun ix => ix.name == n) = true) →
      deleteDeprecatedIndexes declared st l = .ok (st, []) := by
  intro l
  induction l with
  | nil => intro st _; rfl
  | cons n rest ih =>
    intro st hall
    simp only [deleteDeprecatedIndexes]
    rw [if_pos (hall n (List.mem_cons_self n rest))]
    exact ih st fun m hm => hall m (List.mem_cons_of_mem n hm)

theorem reconcileIndexes_noop (snapshot : List String) :
    ∀ (incs : List IDBObjectStoreIndexParams) (st : NativeStore),
      (∀ p ∈ incs, ∃ ni, st.indexNamed p.name = some ni ∧
        indexNeedsRecreate p ni = false) →
      (∀ p ∈ incs, snapshot.contains p.name = true) →
      reconcileIndexes snapshot st incs = .ok (st, []) := by
  intro incs
  induction incs with
  | nil => intro st _ _; rfl
  | cons p rest ih =>
    intro st hsettled hsnap
    obtain ⟨ni, hfind, hnr⟩ := hsettled p (List.mem_cons_self p rest)
    have hstep : reconcileIndex snapshot st p = .ok (st, []) := by
      unfold reconcileIndex
      rw [if_pos (hsnap p (List.mem_cons_self p rest)), hfind]
      simp only [hnr]
      rfl
    have hdef : reconcileIndexes snapshot st (p :: rest) =
        (match reconcileIndex snapshot st p with
         | .error e => .error e
         | .ok (st1, ops1) =>
           match reconcileIndexes snapshot st1 rest with
           | .error e => .error e
           | .ok (st2', ops2) => .ok (st2', ops1 ++ ops2)) := rfl
    rw [hdef, hstep]
    simp only []
    rw [ih st (fun q hq => hsettled q (List.mem_cons_of_mem p hq))
      (fun q hq => hsnap q (List.mem_cons_of_mem p hq))]
    rfl

theorem storeNamed_name {db : NativeDB} {n : String} {st : NativeStore}
    (h : db.storeNamed n = some st) : st ∈ db.stores ∧ st.name = n :=
  ⟨List.mem_of_find?_eq_some h, by simpa using List.find?_some h⟩

theorem find_update {l : List NativeStore} {n : String} {st st2 : NativeStore}
    (h : l.find? (fun s => s.name == n) = some st) (hname : st2.name = n) :
    (l.map fun s => if s.name == st2.name then st2 else s).find?
      (fun s => s.name == n) = some st2 := by
  induction l with
  | nil => simp at h
  | cons a rest ih =>
    simp only [List.map_cons]
    by_cases ha : (a.name == n) = true
    · have hcond : (a.name == st2.name) = true := by
        rw [hname]
        exact ha
      rw [if_pos hcond]
      apply List.find?_cons_of_pos
      rw [hname]
      simp
    · rw [List.find?_cons_of_neg (p := fun s : NativeStore => s.name == n) _ ha] at h
      by_cases hcond : (a.name == st2.name) = true
      · rw [hname] at hcond
        exact absurd hcond ha
      · rw [if_neg hcond]
        rw [List.find?_cons_of_neg (p := fun s : NativeStore => s.name == n) _ ha]
        exact ih h

theorem find_update_frame {l : List NativeStore} {m : String} {st2 : NativeStore}
    (hm : m ≠ st2.name) :
    (l.map fun s => if s.name == st2.name then st2 else s).find?
      (fun s => s.name == m) = l.find? (fun s => s.name == m) := by
  induction l with
  | nil => rfl
  | cons a rest ih =>
    simp only [List.map_cons]
    by_cases ha : (a.name == st2.name) = true
    · rw [if_pos ha]
      have haeq : a.name = st2.name := by simpa using ha
      have h1 : (st2.name == m) = false := by
        simp only [beq_eq_false_iff_ne, ne_eq]
        exact fun hEq => hm hEq.symm
      have h2 : (a.name == m) = false := by
        rw [haeq]
        exact h1
      rw [List.find?_cons_of_neg (p := fun s : NativeStore => s.name == m) _ (by simp [h1]),
        List.find?_cons_of_neg (p := fun s : NativeStore => s.name == m) _ (by simp [h2])]
      exact ih
    · rw [if_neg ha]
      by_cases hap : (a.name == m) = true
      · rw [List.find?_cons_of_pos (p := fun s : NativeStore => s.name == m) _ hap,
          List.find?_cons_of_pos (p := fun s : NativeStore => s.name == m) _ hap]
      · rw [List.find?_cons_of_neg (p := fun s : NativeStore => s.name == m) _ hap,
          List.find?_cons_of_neg (p := fun s : NativeStore => s.name == m) _ hap]
        exact ih

theorem update_names (l : List NativeStore) (st2 : NativeStore) :
    (l.map fun s => if s.name == st2.name then st2 else s).map NativeStore.name =
      l.map NativeStore.name := by
  rw [List.map_map]
  apply List.map_congr_left
  intro s _
  by_cases h : (s.name == st2.name) = true
  · have : s.name = st2.name := by simpa using h
    simp [Function.comp, h, this]
  · simp [Function.comp, h]

theorem update_self {l : List NativeStore} {n : String} {st : NativeStore}
    (hnd : (l.map NativeStore.name).Nodup)
    (h : l.find? (fun s => s.name == n) = some st) :
    (l.map fun s => if s.name == st.name then st else s) = l := by
  induction l with
  | nil => rfl
  | cons a rest ih =>
    rw [List.map_cons] at hnd
    have hnd' := List.nodup_cons.mp hnd
    simp only [List.map_cons]
    by_cases ha : (a.name == n) = true
    · rw [List.find?_cons_of_pos (p := fun s : NativeStore => s.name == n) _ ha] at h
      injection h with h
      subst h
      rw [if_pos (by simp)]
      congr 1
      conv_rhs => rw [← List.map_id rest]
      apply List.map_congr_left
      intro s hs
      have hsname : s.name ≠ a.name := by
        intro hEq
        exact hnd'.1 (hEq ▸ List.mem_map_of_mem NativeStore.name hs)
      simp [hsname]
    · rw [List.find?_cons_of_neg (p := fun s : NativeStore => s.name == n) _ ha] at h
      have hstn : st.name = n := by simpa using List.find?_some h
      have hmem : st ∈ rest := List.mem_of_find?_eq_some h
      have hane : (a.name == st.name) = false := by
        simp only [beq_eq_false_iff_ne, ne_eq]
        intro hEq
        exact hnd'.1 (hEq ▸ List.mem_map_of_mem NativeStore.name hmem)
      rw [if_neg (by simp [hane])]
      rw [ih hnd'.2 h]

theorem updateStore_mem {db : NativeDB} {st2 : NativeStore} {s : NativeStore}
    (h : s ∈ (db.updateStore st2).stores) : s = st2 ∨ s ∈ db.stores := by
  unfold NativeDB.updateStore at h
  simp only [List.mem_map] at h
  obtain ⟨a, hmem, heq⟩ := h
  by_cases ha : (a.name == st2.name) = true
  · rw [if_pos ha] at heq
    exact Or.inl heq.symm
  · rw [if_neg ha] at heq
    exact Or.inr (heq ▸ hmem)

theorem addStoreIndexes_spec :
    ∀ (incs : List IDBObjectStoreIndexParams) (st st' : NativeStore) (ops : List SchemaOp),
      addStoreIndexes st incs = .ok (st', ops) →
      st'.name = st.name ∧ st'.params = st.params ∧
      st'.indexes = st.indexes ++ incs.map mkNativeIndex := by
  intro incs
  induction incs with
  | nil =>
    intro st st' ops h
    simp only [addStoreIndexes, Except.ok.injEq, Prod.mk.injEq] at h
    obtain ⟨rfl, rfl⟩ := h
    exact ⟨rfl, rfl, by simp⟩
  | cons p rest ih =>
    intro st st' ops h
    simp only [addStoreIndexes] at h
    cases hadd : addStoreIndex st p with
    | error e => rw [hadd] at h; simp at h
    | ok out =>
      obtain ⟨st1, ops1⟩ := out
      rw [hadd] at h
      simp only [] at h
      obtain ⟨_, hst1, _⟩ := addStoreIndex_ok_inv hadd
      subst hst1
      cases hrest : addStoreIndexes ⟨st.name, st.params, st.indexes ++ [mkNativeIndex p]⟩ rest with
      | error e => rw [hrest] at h; simp at h
      | ok out2 =>
        obtain ⟨st2, ops2⟩ := out2
        rw [hrest] at h
        simp only [Except.ok.injEq, Prod.mk.injEq] at h
        obtain ⟨rfl, rfl⟩ := h
        obtain ⟨h1, h2, h3⟩ := ih _ st2 ops2 hrest
        refine ⟨h1, h2, ?_⟩
        rw [h3]
        simp

theorem findIndex_map_mk :
    ∀ (incs : List IDBObjectStoreIndexParams) (p : IDBObjectStoreIndexParams),
      p ∈ incs →
      (incs.map IDBObjectStoreIndexParams.name).Nodup →
      (incs.map mkNativeIndex).find? (fun ix => ix.name == p.name) =
        some (mkNativeIndex p) := by
  intro incs
  induction incs with
  | nil => intro p hp _; cases hp
  | cons q rest ih =>
    intro p hp hnd
    rw [List.map_cons] at hnd
    have hnd' := List.nodup_cons.mp hnd
    rcases List.mem_cons.mp hp with rfl | hprest
    · rw [List.map_cons]
      apply List.find?_cons_of_pos
      simp [mkNativeIndex]
    · have hqp : q.name ≠ p.name := by
        intro hEq
        exact hnd'.1 (hEq ▸ List.mem_map_of_mem IDBObjectStoreIndexParams.name hprest)
      rw [List.map_cons, List.find?_cons_of_neg]
      · exact ih p hprest hnd'.2
      · simp [mkNativeIndex, hqp]

/-- The options of a declared index are omitted entirely or specify both
`unique` and `multiEntry`. When violated, the strict comparison against
`undefined` makes auto-reconciliation recreate the index on every run. -/
def optionsFullySpecified (p : IDBObjectStoreIndexParams) : Bool :=
  match p.options with
  | none => true
  | some o => o.unique.isSome && o.multiEntry.isSome

/-- The store's live index set agrees with its declaration: every declared
index exists under its name with no recreate condition, and every live index
is declared. -/
def storeReconciled (sc : IDBObjectStoreConfig) (st : NativeStore) : Prop :=
  (∀ p ∈ sc.indexes, ∃ ni, st.indexNamed p.name = some ni ∧
    indexNeedsRecreate p ni = false) ∧
  (∀ ni ∈ st.indexes, ∃ p ∈ sc.indexes, p.name = ni.name)

/-- Declaration sanity: distinct declared index names, and options omitted or
fully specified. -/
def goodStoreConfig (sc : IDBObjectStoreConfig) : Prop :=
  (sc.indexes.map IDBObjectStoreIndexParams.name).Nodup ∧
  ∀ p ∈ sc.indexes, optionsFullySpecified p = true

instance (sc : IDBObjectStoreConfig) : Decidable (goodStoreConfig sc) := by
  unfold goodStoreConfig
  infer_instance

theorem contains_names_eq_hasIndex (st : NativeStore) (n : String) :
    (st.indexes.map NativeIndex.name).contains n = st.hasIndex n := by
  by_cases hh : st.hasIndex n = true
  · rw [hh]
    unfold NativeStore.hasIndex at hh
    cases hfind : st.indexNamed n with
    | none => rw [hfind] at hh; cases hh
    | some ni =>
      obtain ⟨hmem, hname⟩ := indexNamed_eq_some hfind
      have : n ∈ st.indexes.map NativeIndex.name := hname ▸ List.mem_map_of_mem _ hmem
      simpa using this
  · have hf : st.hasIndex n = false := by simpa using hh
    rw [hf]
    by_cases hc : (st.indexes.map NativeIndex.name).contains n = true
    · have : n ∈ st.indexes.map NativeIndex.name := by simpa using hc
      obtain ⟨ni, hmem, hname⟩ := List.mem_map.mp this
      have := indexNamed_isSome_of_mem hmem
      rw [hname] at this
      rw [this] at hf
      cases hf
    · simpa using hc

theorem processStoreConfig_present_inv {db : NativeDB} {sc : IDBObjectStoreConfig}
    {st : NativeStore} {db' : NativeDB} {ops : List SchemaOp}
    (hfind : db.storeNamed sc.name = some st)
    (h : processStoreConfig db sc = .ok (db', ops)) :
    ∃ st' st'' ops1 ops2,
      reconcileIndexes (st.indexes.map NativeIndex.name) st sc.indexes = .ok (st', ops1) ∧
      deleteDeprecatedIndexes sc.indexes st' (st.indexes.map NativeIndex.name) =
        .ok (st'', ops2) ∧
      db' = db.updateStore st'' ∧ ops = ops1 ++ ops2 := by
  unfold processStoreConfig at h
  rw [hfind] at h
  simp only [] at h
  cases h1 : reconcileIndexes (st.indexes.map NativeIndex.name) st sc.indexes with
  | error e => rw [h1] at h; simp at h
  | ok out1 =>
    obtain ⟨st', ops1⟩ := out1
    rw [h1] at h
    simp only [] at h
    cases h2 : deleteDeprecatedIndexes sc.indexes st' (st.indexes.map NativeIndex.name) with
    | error e => rw [h2] at h; simp at h
    | ok out2 =>
      obtain ⟨st'', ops2⟩ := out2
      rw [h2] at h
      simp only [Except.ok.injEq, Prod.mk.injEq] at h
      obtain ⟨rfl, rfl⟩ := h
      exact ⟨st', st'', ops1, ops2, rfl, h2, rfl, rfl⟩

theorem createObjectStore_inv {db : NativeDB} {name : String}
    {options : IDBObjectStoreParameters} {indexes : List IDBObjectStoreIndexParams}
    {db' : NativeDB} {ops : List SchemaOp}
    (h : createObjectStore db name options indexes = .ok (db', ops)) :
    ∃ st' ops', addStoreIndexes ⟨name, options, []⟩ indexes = .ok (st', ops') ∧
      db' = ⟨db.stores ++ [st']⟩ ∧ ops = .createStore name :: ops' := by
  unfold createObjectStore at h
  cases hfind : db.storeNamed name with
  | some st => rw [hfind] at h; simp at h
  | none =>
    rw [hfind] at h
    simp only [] at h
    cases hadd : addStoreIndexes ⟨name, options, []⟩ indexes with
    | error e => rw [hadd] at h; simp at h
    | ok out =>
      obtain ⟨st', ops'⟩ := out
      rw [hadd] at h
      simp only [Except.ok.injEq, Prod.mk.injEq] at h
      obtain ⟨rfl, rfl⟩ := h
      exact ⟨st', ops', rfl, rfl, rfl⟩

theorem processStoreConfig_reconciles {db db' : NativeDB} {sc : IDBObjectStoreConfig}
    {ops : List SchemaOp}
    (h : processStoreConfig db sc = .ok (db', ops))
    (hwf : db.wf) (hgood : goodStoreConfig sc) :
    db'.wf ∧
    (∃ st', db'.storeNamed sc.name = some st' ∧ storeReconciled sc st') ∧
    (∀ m, m ≠ sc.name → db'.storeNamed m = db.storeNamed m) := by
  cases hfind : db.storeNamed sc.name with
  | some st =>
    obtain ⟨hmem, hstname⟩ := storeNamed_name hfind
    have hstwf : st.wf := hwf.2 st hmem
    obtain ⟨st', st'', ops1, ops2, h1, h2, rfl, rfl⟩ :=
      processStoreConfig_present_inv hfind h
    have hsnap : ∀ p ∈ sc.indexes,
        (st.indexes.map NativeIndex.name).contains p.name = st.hasIndex p.name :=
      fun p _ => contains_names_eq_hasIndex st p.name
    obtain ⟨hwf', hname', hparams', hframe', hprov', hper'⟩ :=
      reconcileIndexes_spec (st.indexes.map NativeIndex.name) sc.indexes st st' ops1
        h1 hstwf hgood.1 hsnap
    obtain ⟨dname, dparams, dwf, dframe, dsub, ddel⟩ :=
      deleteDeprecatedIndexes_spec sc.indexes (st.indexes.map NativeIndex.name)
        st' st'' ops2 h2
    have hsettled : ∀ p ∈ sc.indexes, ∃ ni, st''.indexNamed p.name = some ni ∧
        indexNeedsRecreate p ni = false := by
      intro p hp
      have hany : sc.indexes.any (fun ix => ix.name == p.name) = true := by
        simp only [List.any_eq_true]
        exact ⟨p, hp, by simp⟩
      have hfr := dframe p.name hany
      obtain ⟨hOld, hNone⟩ := hper' p hp
      cases hfind2 : st.indexNamed p.name with
      | some old =>
        by_cases hnr : indexNeedsRecreate p old = true
        · obtain ⟨-, -, hself⟩ := (hOld old hfind2).2 hnr
          exact ⟨mkNativeIndex p, hfr.trans hself,
            indexNeedsRecreate_mk_self p (hgood.2 p hp)⟩
        · have hnrf : indexNeedsRecreate p old = false := by simpa using hnr
          exact ⟨old, hfr.trans ((hOld old hfind2).1 hnrf), hnrf⟩
      | none =>
        obtain ⟨-, hself⟩ := hNone hfind2
        exact ⟨mkNativeIndex p, hfr.trans hself,
          indexNeedsRecreate_mk_self p (hgood.2 p hp)⟩
    have hsubset : ∀ ni ∈ st''.indexes, ∃ p ∈ sc.indexes, p.name = ni.name := by
      intro ni hni
      have hni' : ni ∈ st'.indexes := dsub ni hni
      rcases hprov' ni hni' with hdecl | horig
      · obtain ⟨p, hp, hpname⟩ := List.mem_map.mp hdecl
        exact ⟨p, hp, hpname⟩
      · by_cases hany : sc.indexes.any (fun ix => ix.name == ni.name) = true
        · simp only [List.any_eq_true] at hany
          obtain ⟨p, hp, hpeq⟩ := hany
          exact ⟨p, hp, by simpa using hpeq⟩
        · have hanyf : sc.indexes.any (fun ix => ix.name == ni.name) = false := by
            simpa using hany
          obtain ⟨-, hfalse⟩ := ddel ni.name (List.mem_map_of_mem _ horig) hanyf
          have htrue := indexNamed_isSome_of_mem hni
          rw [htrue] at hfalse
          cases hfalse
    have hname'' : st''.name = sc.name := by rw [dname, hname', hstname]
    have hwf'' : st''.wf := dwf hwf'
    refine ⟨⟨?_, ?_⟩, ⟨st'', ?_, hsettled, hsubset⟩, ?_⟩
    · show ((db.stores.map fun s => if s.name == st''.name then st'' else s).map
        NativeStore.name).Nodup
      rw [update_names]
      exact hwf.1
    · intro s hs
      rcases updateStore_mem hs with rfl | hmem2
      · exact hwf''
      · exact hwf.2 s hmem2
    · exact find_update hfind hname''
    · intro m hm
      show (db.updateStore st'').storeNamed m = db.storeNamed m
      unfold NativeDB.updateStore NativeDB.storeNamed
      apply find_update_frame
      rw [hname'']
      exact hm
  | none =>
    unfold processStoreConfig at h
    rw [hfind] at h
    obtain ⟨st', ops', hadd, rfl, rfl⟩ := createObjectStore_inv h
    obtain ⟨h1, h2, h3⟩ := addStoreIndexes_spec sc.indexes ⟨sc.name, sc.params, []⟩
      st' ops' hadd
    have hidx : st'.indexes = sc.indexes.map mkNativeIndex := by
      rw [h3]
      simp
    have hwf' : st'.wf := by
      show (st'.indexes.map NativeIndex.name).Nodup
      rw [hidx, List.map_map]
      have hcomp : (NativeIndex.name ∘ mkNativeIndex) = IDBObjectStoreIndexParams.name :=
        funext fun p => rfl
      rw [hcomp]
      exact hgood.1
    have hsettled : ∀ p ∈ sc.indexes, ∃ ni, st'.indexNamed p.name = some ni ∧
        indexNeedsRecreate p ni = false := by
      intro p hp
      refine ⟨mkNativeIndex p, ?_, indexNeedsRecreate_mk_self p (hgood.2 p hp)⟩
      show st'.indexNamed p.name = some (mkNativeIndex p)
      unfold NativeStore.indexNamed
      rw [hidx]
      exact findIndex_map_mk sc.indexes p hp hgood.1
    have hsubset : ∀ ni ∈ st'.indexes, ∃ p ∈ sc.indexes, p.name = ni.name := by
      intro ni hni
      rw [hidx] at hni
      obtain ⟨p, hp, hpeq⟩ := List.mem_map.mp hni
      exact ⟨p, hp, by rw [← hpeq]; rfl⟩
    have hnotin : ∀ s ∈ db.stores, (s.name == sc.name) = false := by
      intro s hs
      have := List.find?_eq_none.mp hfind s hs
      simpa using this
    refine ⟨⟨?_, ?_⟩, ⟨st', ?_, hsettled, hsubset⟩, ?_⟩
    · show ((db.stores ++ [st']).map NativeStore.name).Nodup
      rw [List.map_append]
      refine List.Nodup.append hwf.1 (List.nodup_singleton _) ?_
      intro a ha hb
      simp only [List.map_cons, List.map_nil, List.mem_singleton] at hb
      subst hb
      obtain ⟨s, hs, hsname⟩ := List.mem_map.mp ha
      have := hnotin s hs
      rw [hsname, h1] at this
      simp at this
    · intro s hs
      rcases List.mem_append.mp hs with hs1 | hs2
      · exact hwf.2 s hs1
      · simp only [List.mem_singleton] at hs2
        subst hs2
        exact hwf'
    · show (db.stores ++ [st']).find? (fun s => s.name == sc.name) = some st'
      rw [find_append_none _ _ _ hfind]
      apply List.find?_cons_of_pos
      rw [h1]
      simp
    · intro m hm
      show (db.stores ++ [st']).find? (fun s => s.name == m) = db.storeNamed m
      cases hf : db.storeNamed m with
      | some s => exact find_append_some _ _ _ _ hf
      | none =>
        rw [find_append_none _ _ _ hf]
        have : (st'.name == m) = false := by
          rw [h1]
          simp only [beq_eq_false_iff_ne, ne_eq]
          exact fun hEq => hm hEq.symm
        rw [List.find?_cons_of_neg _ (by simp [this])]
        rfl

theorem processStoreConfig_noop {db : NativeDB} {sc : IDBObjectStoreConfig}
    {st : NativeStore} (hwf : db.wf)
    (hfind : db.storeNamed sc.name = some st) (hrec : storeReconciled sc st) :
    processStoreConfig db sc = .ok (db, []) := by
  have hsnap : ∀ p ∈ sc.indexes,
      (st.indexes.map NativeIndex.name).contains p.name = true := by
    intro p hp
    obtain ⟨ni, hni, -⟩ := hrec.1 p hp
    obtain ⟨hmem2, hname2⟩ := indexNamed_eq_some hni
    have : p.name ∈ st.indexes.map NativeIndex.name :=
      hname2 ▸ List.mem_map_of_mem _ hmem2
    simpa using this
  have h1 := reconcileIndexes_noop (st.indexes.map NativeIndex.name) sc.indexes st
    hrec.1 hsnap
  have hall : ∀ n ∈ st.indexes.map NativeIndex.name,
      sc.indexes.any (fun ix => ix.name == n) = true := by
    intro n hn
    obtain ⟨ni, hnimem, rfl⟩ := List.mem_map.mp hn
    obtain ⟨p, hp, hpname⟩ := hrec.2 ni hnimem
    simp only [List.any_eq_true]
    exact ⟨p, hp, by simp [hpname]⟩
  have h2 := deleteDeprecatedIndexes_noop sc.indexes (st.indexes.map NativeIndex.name)
    st hall
  have hupd : db.updateStore st = db := by
    unfold NativeDB.updateStore
    cases db with
    | mk stores =>
      simp only [NativeDB.mk.injEq]
      exact update_self hwf.1 hfind
  unfold processStoreConfig
  rw [hfind]
  simp only [h1, h2, hupd]
  rfl

theorem autoGenerateObjectStores_cons_inv {sc : IDBObjectStoreConfig}
    {rest : List IDBObjectStoreConfig} {db db' : NativeDB} {ops : List SchemaOp}
    (h : autoGenerateObjectStores (sc :: rest) db = .ok (db', ops)) :
    ∃ dbA ops1 ops2, processStoreConfig db sc = .ok (dbA, ops1) ∧
      autoGenerateObjectStores rest dbA = .ok (db', ops2) ∧ ops = ops1 ++ ops2 := by
  simp only [autoGenerateObjectStores] at h
  cases h1 : processStoreConfig db sc with
  | error e => rw [h1] at h; simp at h
  | ok out1 =>
    obtain ⟨dbA, ops1⟩ := out1
    rw [h1] at h
    simp only [] at h
    cases h2 : autoGenerateObjectStores rest dbA with
    | error e => rw [h2] at h; simp at h
    | ok out2 =>
      obtain ⟨dbB, ops2⟩ := out2
      rw [h2] at h
      simp only [Except.ok.injEq, Prod.mk.injEq] at h
      obtain ⟨rfl, rfl⟩ := h
      exact ⟨dbA, ops1, ops2, rfl, h2, rfl⟩

theorem autoGenerateObjectStores_reconciles :
    ∀ (cfgs : List IDBObjectStoreConfig) (db db' : NativeDB) (ops : List SchemaOp),
      autoGenerateObjectStores cfgs db = .ok (db', ops) →
      db.wf →
      (cfgs.map IDBObjectStoreConfig.name).Nodup →
      (∀ sc ∈ cfgs, goodStoreConfig sc) →
      db'.wf ∧
      (∀ sc ∈ cfgs, ∃ st, db'.storeNamed sc.name = some st ∧ storeReconciled sc st) ∧
      (∀ m, m ∉ cfgs.map IDBObjectStoreConfig.name →
        db'.storeNamed m = db.storeNamed m) := by
  intro cfgs
  induction cfgs with
  | nil =>
    intro db db' ops h hwf _ _
    simp only [autoGenerateObjectStores, Except.ok.injEq, Prod.mk.injEq] at h
    obtain ⟨rfl, rfl⟩ := h
    exact ⟨hwf, fun sc hsc => absurd hsc (List.not_mem_nil sc), fun m _ => rfl⟩
  | cons sc rest ih =>
    intro db db' ops h hwf hnd hgood
    obtain ⟨dbA, ops1, ops2, h1, h2, rfl⟩ := autoGenerateObjectStores_cons_inv h
    rw [List.map_cons] at hnd
    have hnd' := List.nodup_cons.mp hnd
    obtain ⟨hwfA, ⟨stA, hfindA, hrecA⟩, hframeA⟩ :=
      processStoreConfig_reconciles h1 hwf (hgood sc (List.mem_cons_self sc rest))
    obtain ⟨hwf', hrecon', hframe'⟩ := ih dbA db' ops2 h2 hwfA hnd'.2
      (fun c hc => hgood c (List.mem_cons_of_mem sc hc))
    refine ⟨hwf', ?_, ?_⟩
    · intro c hc
      rcases List.mem_cons.mp hc with rfl | hcrest
      · exact ⟨stA, (hframe' c.name hnd'.1).trans hfindA, hrecA⟩
      · exact hrecon' c hcrest
    · intro m hm
      rw [List.map_cons, List.mem_cons, not_or] at hm
      exact (hframe' m hm.2).trans (hframeA m hm.1)

theorem autoGenerateObjectStores_noop :
    ∀ (cfgs : List IDBObjectStoreConfig) (db : NativeDB), db.wf →
      (∀ sc ∈ cfgs, ∃ st, db.storeNamed sc.name = some st ∧ storeReconciled sc st) →
      autoGenerateObjectStores cfgs db = .ok (db, []) := by
  intro cfgs
  induction cfgs with
  | nil => intro db _ _; rfl
  | cons sc rest ih =>
    intro db hwf hrecon
    obtain ⟨st, hfind, hrec⟩ := hrecon sc (List.mem_cons_self sc rest)
    have h1 := processStoreConfig_noop hwf hfind hrec
    have h2 := ih db hwf fun c hc => hrecon c (List.mem_cons_of_mem sc hc)
    simp only [autoGenerateObjectStores, h1, h2]
    rfl

/-- C6 amended: for every well-formed starting database and every schema
declaration whose store names are distinct, whose per-store index names are
distinct, and whose index options are omitted or fully specify both `unique`
and `multiEntry`, running `autoGenerateObjectStores` a second time immediately
after a successful first run performs no schema operations at all — in
particular no index deletions and no index creations — and leaves the
database unchanged. -/
theorem autoReconciliation_idempotent
    (cfgs : List IDBObjectStoreConfig) (db0 db1 : NativeDB) (ops1 : List SchemaOp)
    (hwf : db0.wf)
    (hnames : (cfgs.map IDBObjectStoreConfig.name).Nodup)
    (hgood : ∀ sc ∈ cfgs, goodStoreConfig sc)
    (hrun1 : autoGenerateObjectStores cfgs db0 = .ok (db1, ops1)) :
    autoGenerateObjectStores cfgs db1 = .ok (db1, []) := by
  obtain ⟨hwf1, hrecon, -⟩ :=
    autoGenerateObjectStores_reconciles cfgs db0 db1 ops1 hrun1 hwf hnames hgood
  exact autoGenerateObjectStores_noop cfgs db1 hwf1 hrecon

/-- C6 witness: a schema with fully specified index options reconciled from
an empty database; the second run is a no-op. -/
theorem autoReconciliation_idempotent_witness :
    autoGenerateObjectStores
      [⟨"contacts", ⟨none, none⟩,
        [⟨"by_email", .single "email", some ⟨some true, some false⟩⟩]⟩]
      ⟨[⟨"contacts", ⟨none, none⟩, [⟨"by_email", .single "email", true, false⟩]⟩]⟩ =
      .ok (⟨[⟨"contacts", ⟨none, none⟩,
        [⟨"by_email", .single "email", true, false⟩]⟩]⟩, []) :=
  autoReconciliation_idempotent
    [⟨"contacts", ⟨none, none⟩,
      [⟨"by_email", .single "email", some ⟨some true, some false⟩⟩]⟩]
    ⟨[]⟩
    ⟨[⟨"contacts", ⟨none, none⟩, [⟨"by_email", .single "email", true, false⟩]⟩]⟩
    [.createStore "contacts",
      .createIndex "contacts" ⟨"by_email", .single "email", some ⟨some true, some false⟩⟩]
    (by decide) (by decide) (by decide) (by rfl)

/-- C6 counterexample: a schema whose single index declares
`options = { unique: true }` with `multiEntry` omitted. The first run creates
the store and index; the second run, against the unchanged schema, deletes and
recreates the index (the strict comparison of the native `multiEntry := false`
against the omitted option counts as a mismatch), so it performs an index
deletion and an index creation. -/
theorem autoReconciliation_not_idempotent_cex :
    autoGenerateObjectStores
        [⟨"s", ⟨none, none⟩, [⟨"i", KeyPath.single "k", some ⟨some true, none⟩⟩]⟩]
        ⟨[]⟩ =
      .ok (⟨[⟨"s", ⟨none, none⟩, [⟨"i", KeyPath.single "k", true, false⟩]⟩]⟩,
        [.createStore "s",
         .createIndex "s" ⟨"i", KeyPath.single "k", some ⟨some true, none⟩⟩]) ∧
    autoGenerateObjectStores
        [⟨"s", ⟨none, none⟩, [⟨"i", KeyPath.single "k", some ⟨some true, none⟩⟩]⟩]
        ⟨[⟨"s", ⟨none, none⟩, [⟨"i", KeyPath.single "k", true, false⟩]⟩]⟩ =
      .ok (⟨[⟨"s", ⟨none, none⟩, [⟨"i", KeyPath.single "k", true, false⟩]⟩]⟩,
        [.deleteIndex "s" "i",
         .createIndex "s" ⟨"i", KeyPath.single "k", some ⟨some true, none⟩⟩]) :=
  ⟨rfl, rfl⟩

/-- C8: for a declared store already present, auto-reconciliation deletes and
recreates every declared index whose existing namesake has a mismatching key
path or mismatching `unique`/`multiEntry` options, creates every declared
index with no existing namesake, and — after processing the declared indexes —
deletes every pre-existing index whose name is not declared; the resulting
store carries the recreated/created indexes and none of the undeclared ones. -/
theorem reconcile_existing_store_behavior
    (db db' : NativeDB) (sc : IDBObjectStoreConfig) (st : NativeStore)
    (ops : List SchemaOp)
    (hfind : db.storeNamed sc.name = some st)
    (hwfst : st.wf)
    (hnd : (sc.indexes.map IDBObjectStoreIndexParams.name).Nodup)
    (h : processStoreConfig db sc = .ok (db', ops)) :
    (∀ p ∈ sc.indexes, ∀ old, st.indexNamed p.name = some old →
      indexNeedsRecreate p old = true →
      SchemaOp.deleteIndex sc.name p.name ∈ ops ∧
      SchemaOp.createIndex sc.name p ∈ ops) ∧
    (∀ p ∈ sc.indexes, st.indexNamed p.name = none →
      SchemaOp.createIndex sc.name p ∈ ops) ∧
    (∀ ni ∈ st.indexes, ni.name ∉ sc.indexes.map IDBObjectStoreIndexParams.name →
      SchemaOp.deleteIndex sc.name ni.name ∈ ops) ∧
    ∃ st'', db'.storeNamed sc.name = some st'' ∧
      (∀ ni ∈ st.indexes, ni.name ∉ sc.indexes.map IDBObjectStoreIndexParams.name →
        st''.hasIndex ni.name = false) ∧
      (∀ p ∈ sc.indexes,
        (∀ old, st.indexNamed p.name = some old → indexNeedsRecreate p old = true →
          st''.indexNamed p.name = some (mkNativeIndex p)) ∧
        (st.indexNamed p.name = none →
          st''.indexNamed p.name = some (mkNativeIndex p))) := by
  obtain ⟨hmem, hstname⟩ := storeNamed_name hfind
  obtain ⟨st', st'', ops1, ops2, h1, h2, rfl, rfl⟩ :=
    processStoreConfig_present_inv hfind h
  obtain ⟨hwf', hname', hparams', hframe', hprov', hper'⟩ :=
    reconcileIndexes_spec (st.indexes.map NativeIndex.name) sc.indexes st st' ops1
      h1 hwfst hnd (fun p _ => contains_names_eq_hasIndex st p.name)
  obtain ⟨dname, dparams, dwf, dframe, dsub, ddel⟩ :=
    deleteDeprecatedIndexes_spec sc.indexes (st.indexes.map NativeIndex.name)
      st' st'' ops2 h2
  have hanyof : ∀ p ∈ sc.indexes,
      sc.indexes.any (fun ix => ix.name == p.name) = true := by
    intro p hp
    simp only [List.any_eq_true]
    exact ⟨p, hp, by simp⟩
  have hname'' : st''.name = sc.name := by rw [dname, hname', hstname]
  refine ⟨?_, ?_, ?_, st'', find_update hfind hname'', ?_, ?_⟩
  · intro p hp old hfind2 hrec
    obtain ⟨hdel, hcre, -⟩ := ((hper' p hp).1 old hfind2).2 hrec
    rw [hstname] at hdel hcre
    exact ⟨List.mem_append_left _ hdel, List.mem_append_left _ hcre⟩
  · intro p hp hfind2
    obtain ⟨hcre, -⟩ := (hper' p hp).2 hfind2
    rw [hstname] at hcre
    exact List.mem_append_left _ hcre
  · intro ni hni hnotdecl
    have hanyf : sc.indexes.any (fun ix => ix.name == ni.name) = false := by
      rw [List.any_eq_false]
      intro q hq
      simp only [beq_iff_eq]
      intro hEq
      exact hnotdecl (hEq ▸ List.mem_map_of_mem _ hq)
    obtain ⟨hdelop, -⟩ := ddel ni.name (List.mem_map_of_mem _ hni) hanyf
    rw [hname', hstname] at hdelop
    exact List.mem_append_right _ hdelop
  · intro ni hni hnotdecl
    have hanyf : sc.indexes.any (fun ix => ix.name == ni.name) = false := by
      rw [List.any_eq_false]
      intro q hq
      simp only [beq_iff_eq]
      intro hEq
      exact hnotdecl (hEq ▸ List.mem_map_of_mem _ hq)
    exact (ddel ni.name (List.mem_map_of_mem _ hni) hanyf).2
  · intro p hp
    have hfr := dframe p.name (hanyof p hp)
    refine ⟨fun old hfind2 hrec => ?_, fun hfind2 => ?_⟩
    · obtain ⟨-, -, hself⟩ := ((hper' p hp).1 old hfind2).2 hrec
      exact hfr.trans hself
    · obtain ⟨-, hself⟩ := (hper' p hp).2 hfind2
      exact hfr.trans hself

/-- C8 witness: a present store with one mismatching declared index (key-path
change), one absent declared index, and one undeclared pre-existing index. -/
theorem reconcile_existing_store_behavior_witness :
    (SchemaOp.deleteIndex "s" "i" ∈
        ([.deleteIndex "s" "i", .createIndex "s" ⟨"i", KeyPath.single "k2", none⟩,
          .createIndex "s" ⟨"new", KeyPath.single "n", none⟩,
          .deleteIndex "s" "old"] : List SchemaOp) ∧
      SchemaOp.createIndex "s" ⟨"i", KeyPath.single "k2", none⟩ ∈
        ([.deleteIndex "s" "i", .createIndex "s" ⟨"i", KeyPath.single "k2", none⟩,
          .createIndex "s" ⟨"new", KeyPath.single "n", none⟩,
          .deleteIndex "s" "old"] : List SchemaOp)) ∧
    SchemaOp.deleteIndex "s" "old" ∈
      ([.deleteIndex "s" "i", .createIndex "s" ⟨"i", KeyPath.single "k2", none⟩,
        .createIndex "s" ⟨"new", KeyPath.single "n", none⟩,
        .deleteIndex "s" "old"] : List SchemaOp) :=
  ⟨(reconcile_existing_store_behavior
      ⟨[⟨"s", ⟨none, none⟩, [⟨"i", KeyPath.single "k", true, false⟩,
        ⟨"old", KeyPath.single "o", false, false⟩]⟩]⟩
      ⟨[⟨"s", ⟨none, none⟩, [⟨"i", KeyPath.single "k2", false, false⟩,
        ⟨"new", KeyPath.single "n", false, false⟩]⟩]⟩
      ⟨"s", ⟨none, none⟩, [⟨"i", KeyPath.single "k2", none⟩,
        ⟨"new", KeyPath.single "n", none⟩]⟩
      ⟨"s", ⟨none, none⟩, [⟨"i", KeyPath.single "k", true, false⟩,
        ⟨"old", KeyPath.single "o", false, false⟩]⟩
      [.deleteIndex "s" "i", .createIndex "s" ⟨"i", KeyPath.single "k2", none⟩,
        .createIndex "s" ⟨"new", KeyPath.single "n", none⟩, .deleteIndex "s" "old"]
      rfl (by decide) (by decide) rfl).1
    ⟨"i", KeyPath.single "k2", none⟩ (by decide)
    ⟨"i", KeyPath.single "k", true, false⟩ rfl (by decide),
   (reconcile_existing_store_behavior
      ⟨[⟨"s", ⟨none, none⟩, [⟨"i", KeyPath.single "k", true, false⟩,
        ⟨"old", KeyPath.single "o", false, false⟩]⟩]⟩
      ⟨[⟨"s", ⟨none, none⟩, [⟨"i", KeyPath.single "k2", false, false⟩,
        ⟨"new", KeyPath.single "n", false, false⟩]⟩]⟩
      ⟨"s", ⟨none, none⟩, [⟨"i", KeyPath.single "k2", none⟩,
        ⟨"new", KeyPath.single "n", none⟩]⟩
      ⟨"s", ⟨none, none⟩, [⟨"i", KeyPath.single "k", true, false⟩,
        ⟨"old", KeyPath.single "o", false, false⟩]⟩
      [.deleteIndex "s" "i", .createIndex "s" ⟨"i", KeyPath.single "k2", none⟩,
        .createIndex "s" ⟨"new", KeyPath.single "n", none⟩, .deleteIndex "s" "old"]
      rfl (by decide) (by decide) rfl).2.2.1
    ⟨"old", KeyPath.single "o", false, false⟩ (by decide) (by decide)⟩

